import Mathlib

/-!
Verification development for the WarRaft/discord-bot repository.

The Rust sources are shallowly embedded: Mongo collections become lists of
records, atomic `find_one_and_update` becomes a pure function that picks the
first matching document of minimal sort key and replaces it in place, byte
buffers (`Vec<u8>`) are modelled as strings, BSON timestamps as natural
numbers (epoch milliseconds), and the f64 arithmetic of the token bucket as
rational arithmetic.
-/

namespace DiscordBot

/-- Byte buffers (`Vec<u8>`) are modelled as strings; `String::into_bytes`
is the identity of this model. -/
abbrev Bytes := String

/-- Job status, from `src/workers/queue.rs` (`QueueStatus`, serialized
lowercase). -/
inductive QueueStatus where
  | pending
  | processing
  | completed
  | failed
deriving DecidableEq, Repr

/-- Discord attachment metadata, from `src/discord/message/attachment.rs`
(struct `Attachment`: id, url, filename). -/
structure Attachment where
  id : String
  url : String
  filename : String
deriving DecidableEq, Repr

/-- BLP queue document, from `src/db/blp_queue.rs` (struct `BlpQueueItem`).
`ObjectId` is modelled as a natural number and `DateTime<Utc>` as epoch
milliseconds. The `interaction_id`/`interaction_token` strings are kept to
preserve the record shape. -/
structure BlpQueueItem where
  id : Option Nat
  user_id : String
  channel_id : String
  message_id : String
  status_message_id : Option String
  interaction_id : String
  interaction_token : String
  attachments : List Attachment
  conversion_blp : Bool
  quality : Nat
  zip : Bool
  status : QueueStatus
  worker_id : Option String
  created_at : Nat
  started_at : Option Nat
  completed_at : Option Nat
  error : Option String
  retry_count : Nat
deriving DecidableEq, Repr

/-- `BlpQueueItem::MAX_RETRIES` in `src/db/blp_queue.rs`. -/
def MAX_RETRIES : Nat := 3

/-- Model of MongoDB `find_one_and_update` with an ascending sort and
return-post-image semantics: among the documents satisfying `p`, the first
one of minimal `key` is replaced by `upd` of itself, and the post-image is
returned together with the new collection contents. Returns `none` and the
unchanged collection when no document matches. -/
def findOneAndUpdate (p : α → Bool) (key : α → Nat) (upd : α → α) :
    List α → Option α × List α
  | [] => (none, [])
  | x :: xs =>
    if p x && xs.all (fun y => !(p y) || decide (key x ≤ key y)) then
      (some (upd x), upd x :: xs)
    else
      let r := findOneAndUpdate p key upd xs
      (r.1, x :: r.2)

/-- Model of MongoDB `update_one` on an `_id` filter: apply `f` to the first
document whose id matches. -/
def updateById (i : Nat) (f : α → α) (getId : α → Option Nat) :
    List α → List α
  | [] => []
  | x :: xs =>
    if getId x = some i then f x :: xs
    else x :: updateById i f getId xs

/-- Filter of `BlpQueueItem::claim_next`:
`status = "pending" ∧ retry_count < MAX_RETRIES`
(`src/db/blp_queue.rs` lines 147–150). -/
def blpClaimFilter (j : BlpQueueItem) : Bool :=
  decide (j.status = QueueStatus.pending) && decide (j.retry_count < MAX_RETRIES)

/-- Update document of `BlpQueueItem::claim_next`:
`$set { status: "processing", worker_id, started_at: now }`
(`src/db/blp_queue.rs` lines 151–157). -/
def blpClaimUpdate (worker_id : String) (now : Nat) (j : BlpQueueItem) :
    BlpQueueItem :=
  { j with
      status := QueueStatus.processing
      worker_id := some worker_id
      started_at := some now }

/-- `BlpQueueItem::claim_next` (`src/db/blp_queue.rs` lines 136–164):
atomic find-one-and-update, filter pending-and-retryable, sort
`created_at` ascending, update sets processing/worker/started, post-image
returned. -/
def claim_next (worker_id : String) (now : Nat) (q : List BlpQueueItem) :
    Option BlpQueueItem × List BlpQueueItem :=
  findOneAndUpdate blpClaimFilter (fun j => j.created_at)
    (blpClaimUpdate worker_id now) q

/-- Document-level update of `BlpQueueItem::mark_completed`
(`src/db/blp_queue.rs` lines 167–184):
`$set { status: "completed", completed_at: now }`. -/
def completeDoc (now : Nat) (j : BlpQueueItem) : BlpQueueItem :=
  { j with
      status := QueueStatus.completed
      completed_at := some now }

/-- `BlpQueueItem::mark_completed`: apply `completeDoc` to the document
with the given id. -/
def mark_completed (i : Nat) (now : Nat) (q : List BlpQueueItem) :
    List BlpQueueItem :=
  updateById i (completeDoc now) (fun j => j.id) q

/-- Document-level update of `BlpQueueItem::mark_failed`
(`src/db/blp_queue.rs` lines 187–210):
`$set { status: "failed", error, completed_at: now }` and
`$inc { retry_count: 1 }`. -/
def failDoc (err : String) (now : Nat) (j : BlpQueueItem) : BlpQueueItem :=
  { j with
      status := QueueStatus.failed
      error := some err
      completed_at := some now
      retry_count := j.retry_count + 1 }

/-- `BlpQueueItem::mark_failed`: apply `failDoc` to the document with the
given id. -/
def mark_failed (i : Nat) (err : String) (now : Nat)
    (q : List BlpQueueItem) : List BlpQueueItem :=
  updateById i (failDoc err now) (fun j => j.id) q

/-- `BlpQueueItem::reset_stuck_items` (`src/db/blp_queue.rs` lines 213–240):
`update_many` over `status = "processing" ∧ started_at < threshold`, setting
`status: "pending", worker_id: null` and `$inc { retry_count: 1 }`.
`threshold` is the caller time minus the timeout. This is the filter part. -/
def stuckFilter (threshold : Nat) (j : BlpQueueItem) : Bool :=
  decide (j.status = QueueStatus.processing) &&
    (match j.started_at with
      | some t => decide (t < threshold)
      | none => false)

/-- The update-many part of `reset_stuck_items`: every stuck document gets
`status: "pending", worker_id: null` and its retry count incremented. -/
def reset_stuck_items (threshold : Nat) (q : List BlpQueueItem) :
    List BlpQueueItem :=
  q.map fun j =>
    if stuckFilter threshold j then
      { j with
          status := QueueStatus.pending
          worker_id := none
          retry_count := j.retry_count + 1 }
    else j

/-- Discord user, from `src/discord/message/message.rs` (struct `User`). -/
structure User where
  id : String
  bot : Option Bool
deriving DecidableEq, Repr

/-- Message reference, from `src/discord/message/message.rs`
(struct `MessageReference`). -/
structure MessageReference where
  kind : Option Int
  message_id : Option String
  channel_id : Option String
  guild_id : Option String
  fail_if_not_exists : Option Bool
deriving DecidableEq, Repr

/-- Discord message, from `src/discord/message/message.rs`
(struct `Message`). -/
structure Message where
  id : String
  author : User
  channel_id : String
  content : String
  attachments : List Attachment
  mentions : List User
  message_reference : Option MessageReference
deriving DecidableEq, Repr

/-- REMBG queue document, from `src/workers/rembg/job.rs` (struct
`JobRembg`). Note that this record has neither a `worker_id` nor a
`started_at` field. -/
structure JobRembg where
  id : Option Nat
  message : Message
  reply : Option Message
  threshold : Nat
  binary : Bool
  mask : Bool
  zip : Bool
  status : QueueStatus
  created : Nat
  completed : Option Nat
  retry : Nat
deriving DecidableEq, Repr

/-- ICON queue document. The file `src/workers/icon/job.rs` is absent from
the sources; this record is modelled from the spec (section 3: per-pool job
with zip-always parameters, status, created/completed timestamps, retry
bounded by MAX_RETRIES) and from the field constants used by
`src/workers/icon/processor.rs`, mirroring `JobRembg`. -/
structure JobIcon where
  id : Option Nat
  message : Message
  reply : Option Message
  zip : Bool
  status : QueueStatus
  created : Nat
  completed : Option Nat
  retry : Nat
deriving DecidableEq, Repr

/-- Claim operation of the REMBG pool, from
`src/workers/rembg/processor.rs` lines 43–57: `find_one_and_update` with
filter `status = pending ∧ retry < MAX_RETRIES`, sort `created` ascending,
return-post-image, and an update that sets ONLY `status = processing`. -/
def rembgClaimNext (q : List JobRembg) : Option JobRembg × List JobRembg :=
  findOneAndUpdate
    (fun j => decide (j.status = QueueStatus.pending) &&
      decide (j.retry < MAX_RETRIES))
    (fun j => j.created)
    (fun j => { j with status := QueueStatus.processing })
    q

/-- Claim operation of the ICON pool, from
`src/workers/icon/processor.rs` lines 29–43: identical in shape to the
REMBG claim; the update sets ONLY `status = processing`. -/
def iconClaimNext (q : List JobIcon) : Option JobIcon × List JobIcon :=
  findOneAndUpdate
    (fun j => decide (j.status = QueueStatus.pending) &&
      decide (j.retry < MAX_RETRIES))
    (fun j => j.created)
    (fun j => { j with status := QueueStatus.processing })
    q

/-- Demo user for concrete evaluations. -/
def demoUser : User := ⟨"u1", none⟩

/-- Demo message for concrete evaluations. -/
def demoMessage : Message := ⟨"m1", demoUser, "c1", "rembg", [], [], none⟩

/-- Demo pending REMBG job for concrete evaluations. -/
def demoJobRembg : JobRembg :=
  ⟨some 1, demoMessage, some demoMessage, 160, false, false, false,
    QueueStatus.pending, 10, none, 0⟩

/-- Demo pending ICON job for concrete evaluations. -/
def demoJobIcon : JobIcon :=
  ⟨some 1, demoMessage, some demoMessage, true,
    QueueStatus.pending, 10, none, 0⟩

/-- Demo pending BLP queue item for concrete evaluations. -/
def demoBlpJob : BlpQueueItem :=
  ⟨some 1, "u1", "c1", "m1", some "s1", "", "", [], true, 80, false,
    QueueStatus.pending, none, 10, none, none, none, 0⟩

/-- `BlpQueueItem::new` (`src/db/blp_queue.rs` lines 94–126): a fresh item
is pending, unclaimed, unstarted, with zero retries. `now` models
`Utc::now()`. -/
def BlpQueueItem.new (user_id channel_id message_id interaction_id
    interaction_token : String) (attachments : List Attachment)
    (conversion_blp : Bool) (quality : Nat) (zip : Bool)
    (status_message_id : Option String) (now : Nat) : BlpQueueItem :=
  { id := none
    user_id := user_id
    channel_id := channel_id
    message_id := message_id
    status_message_id := status_message_id
    interaction_id := interaction_id
    interaction_token := interaction_token
    attachments := attachments
    conversion_blp := conversion_blp
    quality := quality
    zip := zip
    status := QueueStatus.pending
    worker_id := none
    created_at := now
    started_at := none
    completed_at := none
    error := none
    retry_count := 0 }

/-- All mutations the BLP queue collection undergoes in the sources:
insertion of a fresh item (`insert`), the worker claim (`claim_next`), the
two terminal marks, and the stuck sweep. -/
inductive BlpStep : List BlpQueueItem → List BlpQueueItem → Prop where
  | insert (q : List BlpQueueItem) (u c m ii it : String)
      (atts : List Attachment) (cb : Bool) (qu : Nat) (z : Bool)
      (sm : Option String) (now : Nat) :
      BlpStep q (q ++ [BlpQueueItem.new u c m ii it atts cb qu z sm now])
  | claim (w : String) (now : Nat) (q : List BlpQueueItem) :
      BlpStep q (claim_next w now q).2
  | complete (i now : Nat) (q : List BlpQueueItem) :
      BlpStep q (mark_completed i now q)
  | fail (i : Nat) (err : String) (now : Nat) (q : List BlpQueueItem) :
      BlpStep q (mark_failed i err now q)
  | sweep (threshold : Nat) (q : List BlpQueueItem) :
      BlpStep q (reset_stuck_items threshold q)

/-- Every processing job of the BLP collection carries a worker id. -/
def WorkerInv (q : List BlpQueueItem) : Prop :=
  ∀ j ∈ q, j.status = QueueStatus.processing → j.worker_id ≠ none

/-- The demo BLP item as claimed by worker `w` at time 5. -/
def claimedDemoBlp : BlpQueueItem :=
  { demoBlpJob with
      status := QueueStatus.processing
      worker_id := some "w"
      started_at := some 5 }

/-- A demo stuck BLP item: processing, started at time 3, by a dead
worker. -/
def demoStuckBlp : BlpQueueItem :=
  { demoBlpJob with
      status := QueueStatus.processing
      worker_id := some "dead"
      started_at := some 3 }

/-- Base name used for a per-attachment error file in
`src/workers/blp/processor.rs` lines 118–123:
the filename is rsplit on the dot character and piece number 1 is taken,
with the whole filename as fallback. (`rsplit` yields the dot-separated
pieces in reverse order, so piece 1 is the piece before the last dot.) -/
def errorStem (filename : String) : String :=
  match ((filename.splitOn ".").reverse).get? 1 with
  | some s => s
  | none => filename

/-- Duplicate renaming of a successful product
(`src/workers/blp/processor.rs` lines 104–113): split at the last dot
(`rfind`), producing `name_count` plus the extension including its dot; a
file without a dot gets the bare `_count` suffix. -/
def renameDup (filename : String) (count : Nat) : String :=
  let parts := filename.splitOn "."
  if parts.length ≥ 2 then
    String.intercalate "." parts.dropLast ++ "_" ++ toString count ++ "." ++
      parts.getLastD ""
  else
    filename ++ "_" ++ toString count

/-- The `filename_counts` hash map of the processing loop, modelled as an
association list: incrementing the entry of a key, creating it at 1. -/
def bumpCount (m : List (String × Nat)) (k : String) :
    Nat × List (String × Nat) :=
  match m.lookup k with
  | some c => (c + 1, m.map fun p => if p.1 = k then (k, c + 1) else p)
  | none => (1, (k, 1) :: m)

/-- One loop input of `process_attachments`: the attachment together with
the outcome of its download-and-convert step (`convert_to_blp` /
`convert_to_png`), which is external I/O and therefore an input of the
model; a success carries the output filename and bytes. -/
structure AttachOutcome where
  att : Attachment
  result : Except String (String × Bytes)

/-- The error-file body of `src/workers/blp/processor.rs` lines 133–138. -/
def errorContent (filename err timestamp : String) : Bytes :=
  "Error converting file: " ++ filename ++ "\n\nError details:\n" ++ err ++
    "\n\nTimestamp: " ++ timestamp

/-- The loop of `process_attachments` (`src/workers/blp/processor.rs`
lines 93–145), threading the `filename_counts` map: a successful
conversion is appended (renamed on duplicates), an error becomes an
`.error.txt` product (also deduplicated, as `.error_N.txt`) and the loop
continues with the remaining attachments. -/
def processAttachmentsGo (timestamp : String) :
    List (String × Nat) → List AttachOutcome → List (String × Bytes)
  | _, [] => []
  | m, a :: rest =>
    match a.result with
    | Except.ok (filename, bytes) =>
      let bumped := bumpCount m filename
      let name :=
        if bumped.1 > 1 then renameDup filename bumped.1 else filename
      (name, bytes) :: processAttachmentsGo timestamp bumped.2 rest
    | Except.error e =>
      let base := errorStem a.att.filename
      let ef := base ++ ".error.txt"
      let bumped := bumpCount m ef
      let name :=
        if bumped.1 > 1 then
          base ++ ".error_" ++ toString bumped.1 ++ ".txt"
        else ef
      (name, errorContent a.att.filename e timestamp) ::
        processAttachmentsGo timestamp bumped.2 rest

/-- `process_attachments` (`src/workers/blp/processor.rs` lines 89–148):
runs the loop from an empty counts map; the `Result` is always `Ok` — a
per-attachment failure is materialized as an error product, never
propagated. -/
def process_attachments (timestamp : String)
    (outcomes : List AttachOutcome) :
    Except String (List (String × Bytes)) :=
  Except.ok (processAttachmentsGo timestamp [] outcomes)

/-- Observable effects of one `process_queue_item` run, in program
order. -/
inductive ProcEvent where
  | claimed (worker : String)
  | markCompleted
  | markFailed (err : String)
  | patchSend (ok : Bool)
deriving DecidableEq, Repr

/-- Whether a trace contains a mark-failed effect. -/
def hasMarkFailed (t : List ProcEvent) : Bool :=
  t.any fun e =>
    match e with
    | ProcEvent.markFailed _ => true
    | _ => false

/-- `process_queue_item` of the BLP worker (`src/workers/blp/processor.rs`
lines 55–87): claim the next job; on a successful `process_attachments`
the job is marked completed FIRST and the response PATCH is attempted
afterwards, a send failure being only logged; on a processing error the
job is marked failed. `conv` and `sendOk` are the external I/O outcomes;
`now` is the claim instant and `now2` the mark instant. Returns (did-work,
effect trace, new queue). -/
def blpProcessQueueItem (worker : String) (now now2 : Nat)
    (timestamp : String)
    (conv : Attachment → Except String (String × Bytes)) (sendOk : Bool)
    (q : List BlpQueueItem) :
    Bool × List ProcEvent × List BlpQueueItem :=
  match claim_next worker now q with
  | (none, q1) => (false, [], q1)
  | (some item, q1) =>
    let outcomes := item.attachments.map fun a => AttachOutcome.mk a (conv a)
    match process_attachments timestamp outcomes with
    | Except.ok _files =>
      (true,
        [ProcEvent.claimed worker, ProcEvent.markCompleted,
          ProcEvent.patchSend sendOk],
        mark_completed (item.id.getD 0) now2 q1)
    | Except.error e =>
      (true,
        [ProcEvent.claimed worker, ProcEvent.markFailed e],
        mark_failed (item.id.getD 0) e now2 q1)

/-- Effect trace of `process_queue_item` in the legacy REMBG worker
(`src/workers/rembg_processor.rs` lines 113–149): after a successful
processing the response is sent first; the job is marked completed only
when the send succeeded and marked failed when it failed; a processing
error marks the job failed directly. -/
def legacyRembgProcessItemTrace (worker : String)
    (processOutcome : Except String Unit) (sendOk : Bool) :
    List ProcEvent :=
  match processOutcome with
  | Except.ok _ =>
    if sendOk then
      [ProcEvent.claimed worker, ProcEvent.patchSend true,
        ProcEvent.markCompleted]
    else
      [ProcEvent.claimed worker, ProcEvent.patchSend false,
        ProcEvent.markFailed "Failed to send response"]
  | Except.error e => [ProcEvent.claimed worker, ProcEvent.markFailed e]

/-- Effect trace of the send-and-mark tail of the new REMBG processor
(`src/workers/rembg/processor.rs` lines 257–287): the PATCH is attempted;
on success the status is set to completed; on failure the error
propagates out of `process_queue_item` and NO terminal mark is written. -/
def rembgSendPhaseTrace (sendOk : Bool) : List ProcEvent :=
  if sendOk then [ProcEvent.patchSend true, ProcEvent.markCompleted]
  else [ProcEvent.patchSend false]

/-- `ConversionTarget` (`src/workers/blp/job.rs` lines 47–53), read from
the job by the new REMBG worker. -/
inductive ConversionTarget where
  | BLP
  | PNG
deriving DecidableEq, Repr

/-- The download-error file body of `src/workers/rembg/processor.rs`
lines 129–134. -/
def downloadErrorContent (filename err timestamp : String) : Bytes :=
  "Error downloading file: " ++ filename ++ "\n\nError details:\n" ++ err ++
    "\n\nTimestamp: " ++ timestamp

/-- One loop input of the REMBG worker's attachment loop
(`src/workers/rembg/processor.rs` lines 125–214): the downloaded
attachment memory — its filename stem, original filename and optional
download error — together with the outcome of the blocking conversion
for the job's target, which is external I/O and therefore an input of the
model. -/
structure RembgAttachOutcome where
  filename_stem : String
  filename : String
  download_error : Option String
  conv : Except String Bytes

/-- The attachment loop of the new REMBG worker
(`src/workers/rembg/processor.rs` lines 125–214): a download error
becomes a `stem.error.txt` product with the download-error body and the
loop continues with the remaining attachments; otherwise the conversion
result becomes a `stem.blp` / `stem.png` product, a conversion error
again becoming a `stem.error.txt` product. -/
def rembgConvertLoop (target : ConversionTarget) (timestamp : String)
    (outcomes : List RembgAttachOutcome) : List (String × Bytes) :=
  outcomes.map fun a =>
    match a.download_error with
    | some e =>
      (a.filename_stem ++ ".error.txt",
        downloadErrorContent a.filename e timestamp)
    | none =>
      match a.conv with
      | Except.ok bytes =>
        (a.filename_stem ++
          (match target with
            | ConversionTarget.BLP => ".blp"
            | ConversionTarget.PNG => ".png"),
          bytes)
      | Except.error e =>
        (a.filename_stem ++ ".error.txt",
          errorContent a.filename e timestamp)

/-- The completed update of the new REMBG worker
(`src/workers/rembg/processor.rs` lines 274–284): sets only `status` and
`completed`, leaving `retry` untouched. -/
def rembgCompleteDoc (now : Nat) (j : JobRembg) : JobRembg :=
  { j with status := QueueStatus.completed, completed := some now }

/-- The processing tail of the new REMBG worker once the claimed job has
a reply (`src/workers/rembg/processor.rs` lines 119–287): convert all
attachments, then PATCH the reply message, with the send-and-mark
behavior of `rembgSendPhaseTrace` — completed only on send success, and
on send failure the error propagates with no terminal mark. Returns the
products and the effect trace. -/
def rembgProcessWithReply (target : ConversionTarget) (timestamp : String)
    (outcomes : List RembgAttachOutcome) (sendOk : Bool) :
    List (String × Bytes) × List ProcEvent :=
  (rembgConvertLoop target timestamp outcomes, rembgSendPhaseTrace sendOk)

/-- Demo REMBG loop input whose conversion fails. -/
def demoRembgOutcome : RembgAttachOutcome :=
  ⟨"b", "b.png", none, Except.error "bad magic"⟩

/-- Demo conversion oracle that succeeds on every attachment. -/
def demoConvOk : Attachment → Except String (String × Bytes) :=
  fun a => Except.ok (a.filename, "bytes")

/-- Demo loop inputs: one valid conversion and one failing one. -/
def demoOutcomes : List AttachOutcome :=
  [⟨⟨"1", "u1", "a.png"⟩, Except.ok ("a.blp", "BLP1")⟩,
    ⟨⟨"2", "u2", "b.png"⟩, Except.error "bad magic"⟩]

/-- The token bucket of `src/state.rs` (struct `RateLimiter`): the f64
fields `tokens`, `max_tokens`, `refill_rate` are modelled as rationals,
and the monotonic `Instant` of `last_refill` as a rational time in
seconds. -/
structure RateLimiter where
  tokens : ℚ
  max_tokens : ℚ
  refill_rate : ℚ
  last_refill : ℚ
deriving DecidableEq

/-- `RateLimiter::new(requests_per_second)` (`src/state.rs` lines 21–28):
the bucket starts full, with capacity and rate both equal to the requested
rate; `now` models `Instant::now()`. -/
def RateLimiter.new (requests_per_second : ℚ) (now : ℚ) : RateLimiter :=
  { tokens := requests_per_second
    max_tokens := requests_per_second
    refill_rate := requests_per_second
    last_refill := now }

/-- The refill computation of `acquire` (`src/state.rs` line 38):
`(tokens + elapsed * refill_rate).min(max_tokens)` with
`elapsed = now - last_refill`. -/
def refillTokens (rl : RateLimiter) (now : ℚ) : ℚ :=
  min (rl.tokens + (now - rl.last_refill) * rl.refill_rate) rl.max_tokens

/-- One iteration of the `acquire` loop (`src/state.rs` lines 30–53):
under the lock, refill; if at least one token is available consume exactly
one and succeed (the caller returns), otherwise fail and back off 50 ms
before retrying. Result: (success, new state, backoff in ms). -/
def acquireStep (rl : RateLimiter) (now : ℚ) : Bool × RateLimiter × Nat :=
  if 1 ≤ refillTokens rl now then
    (true, { rl with tokens := refillTokens rl now - 1, last_refill := now },
      0)
  else
    (false, { rl with tokens := refillTokens rl now, last_refill := now },
      50)

/-- A sequence of `acquire` iterations at the given instants, counting the
successful ones. -/
def acquireRun (rl : RateLimiter) : List ℚ → Nat × RateLimiter
  | [] => (0, rl)
  | t :: ts =>
    let s := acquireStep rl t
    let r := acquireRun s.2.1 ts
    ((if s.1 then 1 else 0) + r.1, r.2)

/-- Demo rate limiter: capacity 2, rate 2, created at time 0. -/
def demoLimiter : RateLimiter := RateLimiter.new 2 0

/-- Persisted singleton document, from `src/db/state.rs` (struct
`DiscordState`); the f64 rate is modelled as a rational. -/
structure DiscordState where
  id : String
  session_id : Option String
  sequence : Option Nat
  bot_user_id : Option String
  rate_limit : Option ℚ
deriving DecidableEq

/-- `DiscordState::load` (`src/db/state.rs` lines 20–32): the stored
singleton, or an all-empty default. The `Option DiscordState` argument is
the current content of the singleton slot of the `discord_state`
collection. -/
def DiscordState.load (store : Option DiscordState) : DiscordState :=
  store.getD ⟨"bot_state", none, none, none, none⟩

/-- `DiscordState::save` (`src/db/state.rs` lines 34–44): `replace_one`
with upsert on the singleton key — the WHOLE document is replaced. -/
def DiscordState.save (doc : DiscordState) (_store : Option DiscordState) :
    Option DiscordState :=
  some doc

/-- In-memory mutable session state of `BotStateInner`
(`src/state.rs` lines 56–67): sequence, session id, bot user id. -/
structure BotState where
  sequence : Option Nat
  session_id : Option String
  bot_user_id : Option String
deriving DecidableEq

/-- `save_state` (`src/state.rs` lines 130–145): builds a fresh
`DiscordState` from the in-memory fields with `rate_limit := none` and
replaces the whole persisted document with it. -/
def save_state (mem : BotState) (store : Option DiscordState) :
    Option DiscordState :=
  DiscordState.save
    ⟨"bot_state", mem.session_id, mem.sequence, mem.bot_user_id, none⟩
    store

/-- `update_sequence` (`src/state.rs` lines 99–105): when a sequence is
present, store it in memory and persist through `save_state`. -/
def update_sequence (s : Option Nat) (mem : BotState)
    (store : Option DiscordState) : BotState × Option DiscordState :=
  match s with
  | some v =>
    let m2 := { mem with sequence := some v }
    (m2, save_state m2 store)
  | none => (mem, store)

/-- `set_session_id` (`src/state.rs` lines 117–121). -/
def set_session_id (i : String) (mem : BotState)
    (store : Option DiscordState) : BotState × Option DiscordState :=
  let m2 := { mem with session_id := some i }
  (m2, save_state m2 store)

/-- `clear_session` (`src/state.rs` lines 123–128): both the session id
and the sequence become none, in memory and persisted. -/
def clear_session (mem : BotState) (store : Option DiscordState) :
    BotState × Option DiscordState :=
  let m2 := { mem with session_id := none, sequence := none }
  (m2, save_state m2 store)

/-- The startup rate of `init_bot_state` (`src/state.rs` lines 76–92):
the persisted `rate_limit`, defaulting to 40 requests per second. -/
def init_rate_limit (store : Option DiscordState) : ℚ :=
  (DiscordState.load store).rate_limit.getD 40

/-- The limiter built at startup (`src/state.rs` line 92):
`RateLimiter::new` on the configured rate. -/
def init_rate_limiter (store : Option DiscordState) (now : ℚ) :
    RateLimiter :=
  RateLimiter.new (init_rate_limit store) now

/-- An inbound gateway event, from `src/types/discord.rs`
(struct `DiscordEvent`): the opcode number and the optional sequence. The
`d`/`t` payloads are consumed only by the hello branch (heartbeat
interval) and by dispatch routing, which lie outside the modelled loop
step, so they are omitted here. -/
structure DiscordEvent where
  op : Nat
  s : Option Nat
deriving DecidableEq, Repr

/-- `Opcode::from_u8` (`src/types/discord.rs` lines 17–30). -/
inductive Opcode where
  | dispatch
  | heartbeat
  | identify
  | resume
  | invalidSession
  | hello
  | heartbeatAck
  | unknown
deriving DecidableEq, Repr

/-- Wire-number decoding of `Opcode::from_u8`. -/
def Opcode.from_u8 (op : Nat) : Opcode :=
  match op with
  | 0 => Opcode.dispatch
  | 1 => Opcode.heartbeat
  | 2 => Opcode.identify
  | 6 => Opcode.resume
  | 9 => Opcode.invalidSession
  | 10 => Opcode.hello
  | 11 => Opcode.heartbeatAck
  | _ => Opcode.unknown

/-- Outbound frames of the hello branch. -/
inductive GwOutbound where
  | resume (token : String) (session_id : String) (seq : Option Nat)
  | identify (token : String) (intents : Nat)
deriving DecidableEq, Repr

/-- The hello branch of `run_gateway` (`src/discord/gateway.rs` lines
27–72): when a persisted session id exists, send
`resume { token, session_id, seq }`; otherwise send
`identify { token, intents = 33280, properties }`. -/
def helloOutbound (token : String) (session_id : Option String)
    (seq : Option Nat) : GwOutbound :=
  match session_id with
  | some sid => GwOutbound.resume token sid seq
  | none => GwOutbound.identify token 33280

/-- Observable actions of the gateway select loop, in program order. -/
inductive GwAction where
  | persistSequence (v : Nat)
  | sendHeartbeat (seq : Option Nat)
  | dispatchEvent
  | logInvalidSession
  | clearedSession
deriving DecidableEq, Repr

/-- One input of the gateway select loop (`src/discord/gateway.rs` lines
79–125): a heartbeat tick, an inbound text frame, or a non-text frame
(ignored by the `Ok(_) => ()` arm). -/
inductive LoopEvt where
  | tick
  | textFrame (e : DiscordEvent)
  | otherFrame
deriving DecidableEq, Repr

/-- One iteration of the gateway select loop (`src/discord/gateway.rs`
lines 79–125). A tick sends a heartbeat carrying the current sequence. A
text frame is parsed and `update_sequence(event.s)` runs FIRST; then the
opcode is matched: dispatch is routed, invalid-session is logged, clears
the session and ends the loop (`return Ok(())`), anything else is
ignored. Returns the new (memory, store) state, the emitted actions in
program order, and whether the loop continues. -/
def handleLoopEvt (mem : BotState) (store : Option DiscordState) :
    LoopEvt → (BotState × Option DiscordState) × List GwAction × Bool
  | LoopEvt.tick =>
    ((mem, store), [GwAction.sendHeartbeat mem.sequence], true)
  | LoopEvt.textFrame e =>
    let st2 := update_sequence e.s mem store
    let persistActs :=
      match e.s with
      | some v => [GwAction.persistSequence v]
      | none => []
    match Opcode.from_u8 e.op with
    | Opcode.dispatch =>
      (st2, persistActs ++ [GwAction.dispatchEvent], true)
    | Opcode.invalidSession =>
      (clear_session st2.1 st2.2,
        persistActs ++ [GwAction.logInvalidSession, GwAction.clearedSession],
        false)
    | _ => (st2, persistActs, true)
  | LoopEvt.otherFrame => ((mem, store), [], true)

/-- The gateway select loop over a list of inputs, stopping when an
iteration ends the loop. -/
def runGatewayLoop (mem : BotState) (store : Option DiscordState) :
    List LoopEvt → (BotState × Option DiscordState) × List GwAction
  | [] => ((mem, store), [])
  | e :: es =>
    let r := handleLoopEvt mem store e
    if r.2.2 then
      let rest := runGatewayLoop r.1.1 r.1.2 es
      (rest.1, r.2.1 ++ rest.2)
    else
      (r.1, r.2.1)

/-- The sequence numbers carried by the text frames of a loop input
list. -/
def frameSeqs : List LoopEvt → List Nat
  | [] => []
  | LoopEvt.textFrame e :: es =>
    (match e.s with
      | some v => [v]
      | none => []) ++ frameSeqs es
  | _ :: es => frameSeqs es

/-- Rust `str::split_whitespace`, implemented on character lists (the
accumulator holds the current word reversed). -/
def splitWsGo : List Char → List Char → List String
  | [], acc => if acc = [] then [] else [String.mk acc.reverse]
  | c :: rest, acc =>
    if c.isWhitespace then
      if acc = [] then splitWsGo rest []
      else String.mk acc.reverse :: splitWsGo rest []
    else splitWsGo rest (c :: acc)

/-- Rust `str::split_whitespace`: the whitespace-separated words. -/
def splitWhitespace (s : String) : List String := splitWsGo s.toList []

/-- Rust `str::starts_with`, on character lists. -/
def strStarts (s pre : String) : Bool := pre.toList.isPrefixOf s.toList

/-- Rust `str::trim`, on character lists. -/
def trimChars (l : List Char) : List Char :=
  ((l.dropWhile Char.isWhitespace).reverse.dropWhile Char.isWhitespace
    ).reverse

/-- Rust `str::trim`. -/
def strTrim (s : String) : String := String.mk (trimChars s.toList)

/-- Rust `str::to_lowercase` (the inputs contain only ASCII). -/
def strLower (s : String) : String :=
  String.mk (s.toList.map Char.toLower)

/-- Rust `u16::from_str`: an optional leading plus sign, one or more
digits, value at most 65535. -/
def parseU16 (s : String) : Option Nat :=
  let body := if strStarts s "+" then s.toList.drop 1 else s.toList
  if body.length > 0 ∧ body.all Char.isDigit then
    let n := body.foldl (fun acc c => acc * 10 + (c.toNat - 48)) 0
    if n ≤ 65535 then some n else none
  else none

/-- Command kind, from `src/discord/message/handle.rs` lines 7–12
(`bg` is an alias of `rembg`). -/
inductive CommandKind where
  | blp
  | png
  | rembg
deriving DecidableEq, Repr

/-- Parsed command arguments, from `src/discord/message/handle.rs`
lines 14–22. -/
structure CommandArgs where
  kind : CommandKind
  quality : Nat
  threshold : Nat
  zip : Bool
  mode : Bool
  mask : Bool
deriving DecidableEq, Repr

/-- `CommandArgs::default` (`src/discord/message/handle.rs` lines 24–35):
quality 80, threshold 160. -/
def CommandArgs.default : CommandArgs :=
  { kind := CommandKind.png
    quality := 80
    threshold := 160
    zip := false
    mode := false
    mask := false }

/-- One iteration of the token loop of `parse_command_args`
(`src/discord/message/handle.rs` lines 57–72): the three known flags set
their booleans; a numeric token is accepted only in range (quality
1..=100 for blp, threshold 0..=255 for rembg); anything else is
ignored. -/
def applyTok (args : CommandArgs) (tok : String) : CommandArgs :=
  if tok = "zip" then { args with zip := true }
  else if tok = "binary" then { args with mode := true }
  else if tok = "mask" then { args with mask := true }
  else
    match parseU16 tok with
    | some num =>
      match args.kind with
      | CommandKind.blp =>
        if 1 ≤ num ∧ num ≤ 100 then { args with quality := num } else args
      | CommandKind.rembg =>
        if num ≤ 255 then { args with threshold := num } else args
      | CommandKind.png => args
    | none => args

/-- The token list of `parse_command_args`: trim, split on whitespace and
drop the mention tokens (those starting with a less-than sign). -/
def commandTokens (content : String) : List String :=
  (splitWhitespace (strTrim content)).filter fun t => !(strStarts t "<")

/-- The leading command word of `parse_command_args`
(`src/discord/message/handle.rs` lines 50–55). -/
def kindOfToken (t0 : String) : Option CommandKind :=
  if t0 = "blp" then some CommandKind.blp
  else if t0 = "png" then some CommandKind.png
  else if t0 = "rembg" ∨ t0 = "bg" then some CommandKind.rembg
  else none

/-- `parse_command_args` (`src/discord/message/handle.rs` lines 37–75):
tokenize, read the command kind from the first token, and fold the
remaining tokens through the flag loop starting from the defaults. -/
def parse_command_args (content : String) (_bot_id : String) :
    Option CommandArgs :=
  match commandTokens content with
  | [] => none
  | t0 :: rest =>
    match kindOfToken t0 with
    | none => none
    | some k =>
      some (rest.foldl applyTok { CommandArgs.default with kind := k })

/-- Legacy parsed command arguments, from `src/discord/handle/message.rs`
lines 17–30. -/
structure CommandArgsLegacy where
  kind : CommandKind
  quality : Nat
  threshold : Nat
  should_zip : Bool
  binary_mode : Bool
  include_mask : Bool
deriving DecidableEq, Repr

/-- `CommandArgs::default` of the LEGACY module
(`src/discord/handle/message.rs` lines 32–43): quality 80 but
threshold 60. -/
def CommandArgsLegacy.default : CommandArgsLegacy :=
  { kind := CommandKind.png
    quality := 80
    threshold := 60
    should_zip := false
    binary_mode := false
    include_mask := false }

/-- Number of leading decimal digits of a character list. -/
def countDigits : List Char → Nat
  | c :: rest => if c.isDigit then countDigits rest + 1 else 0
  | [] => 0

/-- Match of the regex piece digits-then-closing-bracket at the head of a
character list: one or more digits followed by a greater-than sign;
returns the number of characters consumed. -/
def digitsThenGt (l : List Char) : Option Nat :=
  let k := countDigits l
  if k = 0 then none
  else
    match l.drop k with
    | '>' :: _ => some (k + 1)
    | _ => none

/-- Length of a mention token at the head of the character list, per the
legacy mention regex of `src/discord/handle/message.rs` line 57: user
mentions (with optional exclamation mark), role mentions and channel
mentions. -/
def mentionLen (l : List Char) : Option Nat :=
  match l with
  | '<' :: '@' :: '!' :: rest => (digitsThenGt rest).map (· + 3)
  | '<' :: '@' :: '&' :: rest => (digitsThenGt rest).map (· + 3)
  | '<' :: '@' :: rest => (digitsThenGt rest).map (· + 2)
  | '<' :: '#' :: rest => (digitsThenGt rest).map (· + 2)
  | _ => none

/-- `replace_all` of the mention regex by one space, scanning left to
right. The fuel is the input length: every iteration consumes at least
one character, so it never runs out. -/
def stripMentionsGo : Nat → List Char → List Char
  | 0, l => l
  | fuel + 1, l =>
    match l with
    | [] => []
    | c :: rest =>
      match mentionLen (c :: rest) with
      | some n => ' ' :: stripMentionsGo fuel ((c :: rest).drop n)
      | none => c :: stripMentionsGo fuel rest

/-- Mention stripping of the legacy parser
(`src/discord/handle/message.rs` lines 56–58). -/
def stripMentions (s : String) : String :=
  String.mk (stripMentionsGo s.length s.toList)

/-- Rust `str::replace` (all non-overlapping occurrences, left to right),
on character lists, fueled by the input length. -/
def replaceAllGo : Nat → List Char → List Char → List Char → List Char
  | 0, l, _, _ => l
  | fuel + 1, l, pat, rep =>
    match l with
    | [] => []
    | c :: rest =>
      if pat ≠ [] ∧ pat.isPrefixOf (c :: rest) then
        rep ++ replaceAllGo fuel ((c :: rest).drop pat.length) pat rep
      else c :: replaceAllGo fuel rest pat rep

/-- Rust `str::replace`. -/
def strReplace (s pat rep : String) : String :=
  String.mk (replaceAllGo s.length s.toList pat.toList rep.toList)

/-- The in-range u8 parser closure of the legacy token loop
(`src/discord/handle/message.rs` lines 118–121). -/
def parseU8in (s : String) (lo hi : Nat) : Option Nat :=
  match parseU16 s with
  | some n => if lo ≤ n ∧ n ≤ hi then some n else none
  | none => none

/-- Head-regex matching of the legacy parser: one to three digits
directly after the command word, followed by whitespace or the end of the
input (greedy, with backtracking over the digit count). Returns the
optional inline number and the input after the match. -/
def tryDigitsBoundary (k : Nat) (l : List Char) :
    Option (Option String × List Char) :=
  let ds := l.take k
  if ds.length = k ∧ ds.all Char.isDigit then
    match l.drop k with
    | [] => some (if k = 0 then none else some (String.mk ds), [])
    | c :: rest =>
      if c.isWhitespace then
        some (if k = 0 then none else some (String.mk ds), rest)
      else none
  else none

/-- Head-regex matching for one command alternative. -/
def tryCmd (cmd : String) (s : String) :
    Option (String × Option String × String) :=
  if strStarts s cmd then
    let rest := s.toList.drop cmd.toList.length
    match tryDigitsBoundary 3 rest <|> tryDigitsBoundary 2 rest <|>
        tryDigitsBoundary 1 rest <|> tryDigitsBoundary 0 rest with
    | some (num, tail) => some (cmd, num, String.mk tail)
    | none => none
  else none

/-- The head regex of the legacy parser
(`src/discord/handle/message.rs` line 77), with the alternation order of
the source: blp, png, rembg, bg. -/
def matchHead (s : String) : Option (String × Option String × String) :=
  tryCmd "blp" s <|> tryCmd "png" s <|> tryCmd "rembg" s <|> tryCmd "bg" s

/-- The tail token loop of the legacy parser
(`src/discord/handle/message.rs` lines 123–214): common flags, `zip=`
key-values, then per-kind numeric forms, with the two-token lookahead of
the `-q`/`-t`/long forms. The fuel is the token count: every iteration
consumes at least one token, so it never runs out. -/
def legacyApplyTokensGo :
    Nat → CommandArgsLegacy → List String → CommandArgsLegacy
  | 0, args, _ => args
  | _, args, [] => args
  | fuel + 1, args, tok :: rest =>
    if tok = "zip" ∨ tok = "-z" ∨ tok = "--zip" then
      legacyApplyTokensGo fuel { args with should_zip := true } rest
    else if tok = "binary" ∨ tok = "-b" ∨ tok = "--binary" then
      legacyApplyTokensGo fuel { args with binary_mode := true } rest
    else if tok = "mask" ∨ tok = "-m" ∨ tok = "--mask" then
      legacyApplyTokensGo fuel { args with include_mask := true } rest
    else if strStarts tok "zip=" then
      let v := String.mk (tok.toList.drop 4)
      if v = "1" ∨ v = "true" ∨ v = "yes" then
        legacyApplyTokensGo fuel { args with should_zip := true } rest
      else legacyApplyTokensGo fuel args rest
    else
      match args.kind with
      | CommandKind.blp =>
        if tok.toList.length > 1 ∧ strStarts tok "q" then
          match parseU8in (String.mk (tok.toList.drop 1)) 1 100 with
          | some n => legacyApplyTokensGo fuel { args with quality := n } rest
          | none => legacyApplyTokensGo fuel args rest
        else if tok = "-q" ∨ tok = "--quality" then
          match rest with
          | next :: rest2 =>
            match parseU8in next 1 100 with
            | some n =>
              legacyApplyTokensGo fuel { args with quality := n } rest2
            | none => legacyApplyTokensGo fuel args rest
          | [] => args
        else if strStarts tok "--quality=" then
          match parseU8in (String.mk (tok.toList.drop 10)) 1 100 with
          | some n => legacyApplyTokensGo fuel { args with quality := n } rest
          | none => legacyApplyTokensGo fuel args rest
        else legacyApplyTokensGo fuel args rest
      | CommandKind.rembg =>
        if tok.toList.length > 1 ∧ strStarts tok "t" then
          match parseU8in (String.mk (tok.toList.drop 1)) 0 255 with
          | some n =>
            legacyApplyTokensGo fuel { args with threshold := n } rest
          | none => legacyApplyTokensGo fuel args rest
        else if tok = "-t" ∨ tok = "--threshold" then
          match rest with
          | next :: rest2 =>
            match parseU8in next 0 255 with
            | some n =>
              legacyApplyTokensGo fuel { args with threshold := n } rest2
            | none => legacyApplyTokensGo fuel args rest
          | [] => args
        else if strStarts tok "--threshold=" then
          match parseU8in (String.mk (tok.toList.drop 12)) 0 255 with
          | some n =>
            legacyApplyTokensGo fuel { args with threshold := n } rest
          | none => legacyApplyTokensGo fuel args rest
        else legacyApplyTokensGo fuel args rest
      | CommandKind.png => legacyApplyTokensGo fuel args rest

/-- The tail token loop run to completion. -/
def legacyApplyTokens (args : CommandArgsLegacy) (toks : List String) :
    CommandArgsLegacy :=
  legacyApplyTokensGo toks.length args toks

/-- The LEGACY `parse_command_args`
(`src/discord/handle/message.rs` lines 55–217): strip mentions, strip the
explicit bot-id mention forms, normalize whitespace and lowercase, match
the head regex, apply the inline number in range, then fold the tail
tokens. -/
def legacy_parse_command_args (content : String) (bot_id : String) :
    Option CommandArgsLegacy :=
  let c0 := stripMentions content
  let c1 := strReplace c0 ("<@" ++ bot_id ++ ">") " "
  let c2 := strReplace c1 ("<@!" ++ bot_id ++ ">") " "
  let cleaned := strLower (String.intercalate " " (splitWhitespace c2))
  if cleaned = "" then none
  else
    match matchHead cleaned with
    | none => none
    | some (cmd, inlineNum, tail) =>
      let kind :=
        if cmd = "blp" then some CommandKind.blp
        else if cmd = "png" then some CommandKind.png
        else if cmd = "rembg" ∨ cmd = "bg" then some CommandKind.rembg
        else none
      match kind with
      | none => none
      | some k =>
        let args0 := { CommandArgsLegacy.default with kind := k }
        let args1 :=
          match inlineNum with
          | some num =>
            match parseU16 num with
            | some n =>
              match k with
              | CommandKind.blp =>
                if 1 ≤ n ∧ n ≤ 100 then { args0 with quality := n }
                else args0
              | CommandKind.rembg =>
                if n ≤ 255 then { args0 with threshold := n } else args0
              | CommandKind.png => args0
            | none => args0
          | none => args0
        let tailT := strTrim tail
        if tailT = "" then some args1
        else some (legacyApplyTokens args1 (splitWhitespace tailT))

/-- Rust `Path::file_stem` and `Path::extension` on a bare file name:
split at the last dot, a dot in leading position not counting as a
separator (hidden files). -/
def lastDotIdx (l : List Char) : Option Nat :=
  (List.range l.length).foldl
    (fun acc i => if i > 0 ∧ l.get? i = some '.' then some i else acc)
    none

/-- The (stem, extension) of a file name per the Rust path rules. -/
def fileStemExt (name : String) : String × Option String :=
  let l := name.toList
  match lastDotIdx l with
  | some i => (String.mk (l.take i), some (String.mk (l.drop (i + 1))))
  | none => (name, none)

/-- The loop of `ensure_unique_filenames`
(`src/discord/message/attachment.rs` lines 19–42): a stem-indexed counter
map; the first occurrence of a stem keeps its name, later occurrences are
renamed to stem_count.ext (or stem_count without an extension). -/
def ensureUniqueGo : List (String × Nat) → List Attachment → List Attachment
  | _, [] => []
  | m, att :: rest =>
    let se := fileStemExt att.filename
    let bumped := bumpCount m se.1
    let att2 :=
      if bumped.1 > 1 then
        { att with
            filename :=
              match se.2 with
              | some e => se.1 ++ "_" ++ toString bumped.1 ++ "." ++ e
              | none => se.1 ++ "_" ++ toString bumped.1 }
      else att
    att2 :: ensureUniqueGo bumped.2 rest

/-- `ensure_unique_filenames` (`src/discord/message/attachment.rs`
lines 19–42). -/
def ensure_unique_filenames (attachments : List Attachment) :
    List Attachment :=
  ensureUniqueGo [] attachments

-- ===================================================================
-- Theorems
-- ===================================================================

/-- Unfolding equation for `findOneAndUpdate` on a nonempty collection. -/
theorem findOneAndUpdate_cons (p : α → Bool) (key : α → Nat) (upd : α → α)
    (x : α) (xs : List α) :
    findOneAndUpdate p key upd (x :: xs) =
      if p x && xs.all (fun y => !(p y) || decide (key x ≤ key y)) then
        (some (upd x), upd x :: xs)
      else
        ((findOneAndUpdate p key upd xs).1,
          x :: (findOneAndUpdate p key upd xs).2) := rfl

/-- A find-one-and-update returns no document exactly when no document in
the collection satisfies the filter. -/
theorem findOneAndUpdate_none_iff (p : α → Bool) (key : α → Nat)
    (upd : α → α) :
    ∀ l : List α,
      (findOneAndUpdate p key upd l).1 = none ↔ ∀ x ∈ l, p x = false := by
  intro l
  induction l with
  | nil => simp [findOneAndUpdate]
  | cons x xs ih =>
    rw [findOneAndUpdate_cons]
    by_cases hc :
        (p x && xs.all (fun y => !(p y) || decide (key x ≤ key y))) = true
    · rw [if_pos hc]
      have hx : p x = true := by
        have := hc
        simp only [Bool.and_eq_true] at this
        exact this.1
      simp [hx]
    · rw [if_neg hc]
      simp only []
      constructor
      · intro h y hy
        have hxs := ih.mp h
        rcases List.mem_cons.mp hy with hy | hy
        · subst hy
          by_contra hpx
          have hpx : p y = true := by
            cases hpy : p y
            · exact absurd hpy hpx
            · rfl
          apply hc
          rw [Bool.and_eq_true]
          refine ⟨hpx, ?_⟩
          rw [List.all_eq_true]
          intro z hz
          have := hxs z hz
          simp [this]
        · exact hxs y hy
      · intro h
        exact ih.mpr fun y hy => h y (List.mem_cons_of_mem x hy)

/-- When no document satisfies the filter, find-one-and-update leaves the
collection unchanged. -/
theorem findOneAndUpdate_none_snd (p : α → Bool) (key : α → Nat)
    (upd : α → α) :
    ∀ l : List α, (∀ x ∈ l, p x = false) →
      (findOneAndUpdate p key upd l).2 = l := by
  intro l
  induction l with
  | nil => intro _; rfl
  | cons x xs ih =>
    intro h
    have hx : p x = false := h x (List.mem_cons_self x xs)
    have hc :
        (p x && xs.all (fun y => !(p y) || decide (key x ≤ key y))) = false := by
      simp [hx]
    rw [findOneAndUpdate_cons, hc]
    simp only [Bool.false_eq_true, if_false, List.cons.injEq, true_and]
    exact ih fun y hy => h y (List.mem_cons_of_mem x hy)

/-- Characterization of a successful find-one-and-update: the collection
splits as `l1 ++ pre :: l2` where `pre` is the first document of minimal
sort key among those satisfying the filter, the returned document is the
post-image `upd pre`, and only that one document is replaced. -/
theorem findOneAndUpdate_some (p : α → Bool) (key : α → Nat) (upd : α → α) :
    ∀ (l : List α) (r : α) (lr : List α),
      findOneAndUpdate p key upd l = (some r, lr) →
      ∃ l1 pre l2, l = l1 ++ pre :: l2 ∧ lr = l1 ++ upd pre :: l2 ∧
        p pre = true ∧ r = upd pre ∧
        (∀ y ∈ l1, p y = true → key pre < key y) ∧
        (∀ y ∈ l2, p y = true → key pre ≤ key y) := by
  intro l
  induction l with
  | nil => intro r lr h; simp [findOneAndUpdate] at h
  | cons x xs ih =>
    intro r lr h
    rw [findOneAndUpdate_cons] at h
    by_cases hc :
        (p x && xs.all (fun y => !(p y) || decide (key x ≤ key y))) = true
    · rw [if_pos hc] at h
      have hx : p x = true ∧
          xs.all (fun y => !(p y) || decide (key x ≤ key y)) = true := by
        simpa only [Bool.and_eq_true] using hc
      obtain ⟨hx, hall⟩ := hx
      have hr : r = upd x := by
        have := congrArg Prod.fst h
        simp at this
        exact this.symm
      have hlr : lr = upd x :: xs := by
        have := congrArg Prod.snd h
        simpa using this.symm
      refine ⟨[], x, xs, by simp, by simp [hlr], hx, hr, by simp, ?_⟩
      intro y hy hpy
      have := (List.all_eq_true.mp hall) y hy
      have hor : (!(p y)) = true ∨ decide (key x ≤ key y) = true := by
        simpa only [Bool.or_eq_true] using this
      rcases hor with hb | hb
      · rw [hpy] at hb; simp at hb
      · exact of_decide_eq_true hb
    · rw [if_neg hc] at h
      have hfst : (findOneAndUpdate p key upd xs).1 = some r := by
        have := congrArg Prod.fst h
        simpa using this
      have hsnd : lr = x :: (findOneAndUpdate p key upd xs).2 := by
        have := congrArg Prod.snd h
        simpa using this.symm
      obtain ⟨l1, pre, l2, heq, heq2, hpre, hr, hmin1, hmin2⟩ :=
        ih r (findOneAndUpdate p key upd xs).2 (by rw [← hfst])
      refine ⟨x :: l1, pre, l2, by simp [heq], by simp [hsnd, heq2],
        hpre, hr, ?_, hmin2⟩
      intro y hy hpy
      rcases List.mem_cons.mp hy with hy | hy
      · subst hy
        -- the head was rejected: some later matching document has a
        -- strictly smaller key
        have hnot :
            ¬ (p y = true ∧
              xs.all (fun z => !(p z) || decide (key y ≤ key z)) = true) := by
          intro hcontra
          exact hc (by simp only [Bool.and_eq_true]; exact hcontra)
        have hex : ∃ z ∈ xs, p z = true ∧ key z < key y := by
          by_contra hne
          push_neg at hne
          apply hnot
          refine ⟨hpy, ?_⟩
          rw [List.all_eq_true]
          intro z hz
          rw [Bool.or_eq_true]
          by_cases hpz : p z = true
          · right
            have := hne z hz hpz
            exact decide_eq_true (by omega)
          · left
            cases hpz2 : p z
            · simp
            · exact absurd hpz2 hpz
        obtain ⟨z, hz, hpz, hkz⟩ := hex
        -- pre is minimal among the matches of xs, hence below z
        have hzle : key pre ≤ key z := by
          rw [heq] at hz
          rcases List.mem_append.mp hz with hz1 | hz2
          · exact le_of_lt (hmin1 z hz1 hpz)
          · rcases List.mem_cons.mp hz2 with hz2 | hz2
            · subst hz2; exact le_refl _
            · exact hmin2 z hz2 hpz
        omega
      · exact hmin1 y hy hpy

/-- C1 counterexample: the claim states that for EVERY pool the claim
update sets `status = processing`, `worker_id` and `started_at`. In the
REMBG pool (`src/workers/rembg/processor.rs` lines 43–57) the
find-one-and-update sets only `status`: claiming a concrete pending job
returns a post-image identical to the pre-image except for `status` — the
`JobRembg` record has no `worker_id` or `started_at` field at all, so
nothing is recorded about the claiming worker or the claim time. -/
theorem C1_counterexample :
    rembgClaimNext [demoJobRembg] =
      (some { demoJobRembg with status := QueueStatus.processing },
        [{ demoJobRembg with status := QueueStatus.processing }]) ∧
    iconClaimNext [demoJobIcon] =
      (some { demoJobIcon with status := QueueStatus.processing },
        [{ demoJobIcon with status := QueueStatus.processing }]) := by
  constructor <;> rfl

/-- C1 (amended): in every pool, the claim is an atomic
find-one-and-update whose filter is `status = pending ∧ retry < MAX_RETRIES`,
whose sort is created-ascending (FIFO, earliest of minimal creation time),
returning the post-update document, or nothing exactly when no job matches;
the BLP pool update sets `status = processing`, `worker_id` and
`started_at = now`, while the REMBG and ICON pool updates set ONLY
`status = processing` (their job records carry no worker or start-time
fields). -/
theorem C1_claim_next_characterization :
    (∀ (w : String) (now : Nat) (q : List BlpQueueItem),
      ((claim_next w now q).1 = none ↔ ∀ j ∈ q, blpClaimFilter j = false) ∧
      (∀ r q2, claim_next w now q = (some r, q2) →
        ∃ l1 pre l2, q = l1 ++ pre :: l2 ∧ q2 = l1 ++ r :: l2 ∧
          pre.status = QueueStatus.pending ∧
          pre.retry_count < MAX_RETRIES ∧
          r = { pre with
                  status := QueueStatus.processing
                  worker_id := some w
                  started_at := some now } ∧
          (∀ y ∈ l1, blpClaimFilter y = true →
            pre.created_at < y.created_at) ∧
          (∀ y ∈ l2, blpClaimFilter y = true →
            pre.created_at ≤ y.created_at))) ∧
    (∀ q : List JobRembg,
      ((rembgClaimNext q).1 = none ↔
        ∀ j ∈ q, ¬(j.status = QueueStatus.pending ∧ j.retry < MAX_RETRIES)) ∧
      (∀ r q2, rembgClaimNext q = (some r, q2) →
        ∃ l1 pre l2, q = l1 ++ pre :: l2 ∧ q2 = l1 ++ r :: l2 ∧
          pre.status = QueueStatus.pending ∧
          pre.retry < MAX_RETRIES ∧
          r = { pre with status := QueueStatus.processing } ∧
          (∀ y ∈ l1, y.status = QueueStatus.pending →
            y.retry < MAX_RETRIES → pre.created < y.created) ∧
          (∀ y ∈ l2, y.status = QueueStatus.pending →
            y.retry < MAX_RETRIES → pre.created ≤ y.created))) ∧
    (∀ q : List JobIcon,
      ((iconClaimNext q).1 = none ↔
        ∀ j ∈ q, ¬(j.status = QueueStatus.pending ∧ j.retry < MAX_RETRIES)) ∧
      (∀ r q2, iconClaimNext q = (some r, q2) →
        ∃ l1 pre l2, q = l1 ++ pre :: l2 ∧ q2 = l1 ++ r :: l2 ∧
          pre.status = QueueStatus.pending ∧
          pre.retry < MAX_RETRIES ∧
          r = { pre with status := QueueStatus.processing } ∧
          (∀ y ∈ l1, y.status = QueueStatus.pending →
            y.retry < MAX_RETRIES → pre.created < y.created) ∧
          (∀ y ∈ l2, y.status = QueueStatus.pending →
            y.retry < MAX_RETRIES → pre.created ≤ y.created))) := by
  refine ⟨fun w now q => ⟨?_, ?_⟩, fun q => ⟨?_, ?_⟩, fun q => ⟨?_, ?_⟩⟩
  · rw [claim_next, findOneAndUpdate_none_iff]
  · intro r q2 h
    obtain ⟨l1, pre, l2, heq, heq2, hpre, hr, hmin1, hmin2⟩ :=
      findOneAndUpdate_some _ _ _ q r q2 h
    have hpf : pre.status = QueueStatus.pending ∧
        pre.retry_count < MAX_RETRIES := by
      have := hpre
      simp only [blpClaimFilter, Bool.and_eq_true, decide_eq_true_eq] at this
      exact this
    exact ⟨l1, pre, l2, heq, by rw [heq2, hr], hpf.1, hpf.2, hr,
      hmin1, hmin2⟩
  · rw [rembgClaimNext, findOneAndUpdate_none_iff]
    constructor
    · intro h j hj
      have := h j hj
      simp only [Bool.and_eq_true, decide_eq_true_eq] at this
      intro hcon
      rw [Bool.and_eq_false_iff] at this
      rcases this with h1 | h1 <;>
        simp only [decide_eq_false_iff_not] at h1 <;>
        exact h1 (by first | exact hcon.1 | exact hcon.2)
    · intro h j hj
      have := h j hj
      rw [Bool.and_eq_false_iff]
      by_cases hs : j.status = QueueStatus.pending
      · right
        simp only [decide_eq_false_iff_not]
        intro hret
        exact this ⟨hs, hret⟩
      · left
        simp only [decide_eq_false_iff_not]
        exact hs
  · intro r q2 h
    obtain ⟨l1, pre, l2, heq, heq2, hpre, hr, hmin1, hmin2⟩ :=
      findOneAndUpdate_some _ _ _ q r q2 h
    have hpf : pre.status = QueueStatus.pending ∧ pre.retry < MAX_RETRIES := by
      have := hpre
      simp only [Bool.and_eq_true, decide_eq_true_eq] at this
      exact this
    refine ⟨l1, pre, l2, heq, by rw [heq2, hr], hpf.1, hpf.2, hr, ?_, ?_⟩
    · intro y hy hys hyr
      exact hmin1 y hy (by simp [hys, hyr])
    · intro y hy hys hyr
      exact hmin2 y hy (by simp [hys, hyr])
  · rw [iconClaimNext, findOneAndUpdate_none_iff]
    constructor
    · intro h j hj
      have := h j hj
      intro hcon
      rw [Bool.and_eq_false_iff] at this
      rcases this with h1 | h1 <;>
        simp only [decide_eq_false_iff_not] at h1 <;>
        exact h1 (by first | exact hcon.1 | exact hcon.2)
    · intro h j hj
      have := h j hj
      rw [Bool.and_eq_false_iff]
      by_cases hs : j.status = QueueStatus.pending
      · right
        simp only [decide_eq_false_iff_not]
        intro hret
        exact this ⟨hs, hret⟩
      · left
        simp only [decide_eq_false_iff_not]
        exact hs
  · intro r q2 h
    obtain ⟨l1, pre, l2, heq, heq2, hpre, hr, hmin1, hmin2⟩ :=
      findOneAndUpdate_some _ _ _ q r q2 h
    have hpf : pre.status = QueueStatus.pending ∧ pre.retry < MAX_RETRIES := by
      have := hpre
      simp only [Bool.and_eq_true, decide_eq_true_eq] at this
      exact this
    refine ⟨l1, pre, l2, heq, by rw [heq2, hr], hpf.1, hpf.2, hr, ?_, ?_⟩
    · intro y hy hys hyr
      exact hmin1 y hy (by simp [hys, hyr])
    · intro y hy hys hyr
      exact hmin2 y hy (by simp [hys, hyr])

/-- C1 witness: the characterization applied to concrete one-element
queues of each pool. -/
theorem C1_claim_next_characterization_witness :
    (∃ l1 pre l2, [demoBlpJob] = l1 ++ pre :: l2 ∧
      [{ demoBlpJob with
          status := QueueStatus.processing
          worker_id := some "blp-worker-0"
          started_at := some 99 }] = l1 ++
        ({ pre with
            status := QueueStatus.processing
            worker_id := some "blp-worker-0"
            started_at := some 99 } : BlpQueueItem) :: l2 ∧
      pre.status = QueueStatus.pending) ∧
    (∃ l1 pre l2, [demoJobRembg] = l1 ++ pre :: l2 ∧
      pre.status = QueueStatus.pending) := by
  constructor
  · obtain ⟨l1, pre, l2, heq, heq2, hpend, _hret, hr, _h1, _h2⟩ :=
      (C1_claim_next_characterization.1 "blp-worker-0" 99 [demoBlpJob]).2
        { demoBlpJob with
            status := QueueStatus.processing
            worker_id := some "blp-worker-0"
            started_at := some 99 }
        [{ demoBlpJob with
            status := QueueStatus.processing
            worker_id := some "blp-worker-0"
            started_at := some 99 }]
        (by decide)
    exact ⟨l1, pre, l2, heq, by rw [heq2, hr], hpend⟩
  · obtain ⟨l1, pre, l2, heq, _heq2, hpend, _hret, _hr, _h1, _h2⟩ :=
      (C1_claim_next_characterization.2.1 [demoJobRembg]).2
        { demoJobRembg with status := QueueStatus.processing }
        [{ demoJobRembg with status := QueueStatus.processing }]
        (by decide)
    exact ⟨l1, pre, l2, heq, hpend⟩

/-- Every document of the post-state of a find-one-and-update is either an
untouched document of the pre-state or the update of a matching one. -/
theorem findOneAndUpdate_mem_snd (p : α → Bool) (key : α → Nat)
    (upd : α → α) :
    ∀ l : List α, ∀ j ∈ (findOneAndUpdate p key upd l).2,
      j ∈ l ∨ ∃ pre, pre ∈ l ∧ p pre = true ∧ j = upd pre := by
  intro l
  induction l with
  | nil => intro j hj; simp [findOneAndUpdate] at hj
  | cons x xs ih =>
    intro j hj
    rw [findOneAndUpdate_cons] at hj
    by_cases hc :
        (p x && xs.all (fun y => !(p y) || decide (key x ≤ key y))) = true
    · rw [if_pos hc] at hj
      simp only at hj
      rcases List.mem_cons.mp hj with hj | hj
      · right
        have hx : p x = true := by
          have := hc
          simp only [Bool.and_eq_true] at this
          exact this.1
        exact ⟨x, List.mem_cons_self x xs, hx, hj⟩
      · left; exact List.mem_cons_of_mem x hj
    · rw [if_neg hc] at hj
      simp only at hj
      rcases List.mem_cons.mp hj with hj | hj
      · left; rw [hj]; exact List.mem_cons_self x xs
      · rcases ih j hj with hl | ⟨pre, hp, hpp, hje⟩
        · left; exact List.mem_cons_of_mem x hl
        · right; exact ⟨pre, List.mem_cons_of_mem x hp, hpp, hje⟩

/-- Every document of the post-state of an update-one is either an
untouched document of the pre-state or the update of one of them. -/
theorem updateById_mem (i : Nat) (f : α → α) (getId : α → Option Nat) :
    ∀ l : List α, ∀ j ∈ updateById i f getId l,
      j ∈ l ∨ ∃ x, x ∈ l ∧ j = f x := by
  intro l
  induction l with
  | nil => intro j hj; simp [updateById] at hj
  | cons x xs ih =>
    intro j hj
    rw [updateById] at hj
    by_cases hid : getId x = some i
    · rw [if_pos hid] at hj
      rcases List.mem_cons.mp hj with hj | hj
      · right; exact ⟨x, List.mem_cons_self x xs, hj⟩
      · left; exact List.mem_cons_of_mem x hj
    · rw [if_neg hid] at hj
      rcases List.mem_cons.mp hj with hj | hj
      · left; rw [hj]; exact List.mem_cons_self x xs
      · rcases ih j hj with hl | ⟨y, hy, hje⟩
        · left; exact List.mem_cons_of_mem x hl
        · right; exact ⟨y, List.mem_cons_of_mem x hy, hje⟩

/-- C4 counterexample: the claimed equivalence `worker_id non-empty ↔
status = processing` fails. Claiming the demo BLP job (which sets
`worker_id = some "w"`) and then marking it completed
(`mark_completed` sets only `status` and `completed_at`,
`src/db/blp_queue.rs` lines 167–184) leaves a COMPLETED job that still
carries `worker_id = some "w"`. -/
theorem C4_counterexample :
    mark_completed 1 9 (claim_next "w" 5 [demoBlpJob]).2 =
      [{ demoBlpJob with
          status := QueueStatus.completed
          worker_id := some "w"
          started_at := some 5
          completed_at := some 9 }] ∧
    QueueStatus.completed ≠ QueueStatus.processing ∧
    (some "w" : Option String) ≠ none := by
  refine ⟨by decide, by decide, by decide⟩

/-- C4 (amended): in the BLP queue only the forward implication holds:
`status = processing → worker_id` is non-empty, and it is an invariant of
every queue mutation of the sources (`claim_next` establishes it by setting
`worker_id` together with `status = processing`, and the stuck sweep nulls
`worker_id` when flipping the job back to pending). The converse fails:
`mark_completed`/`mark_failed` do not clear `worker_id`, so terminal jobs
may retain it; and the REMBG/ICON job records carry no `worker_id` at
all. -/
theorem C4_worker_id_invariant :
    (∀ q q2, BlpStep q q2 → WorkerInv q → WorkerInv q2) ∧
    (∀ (w : String) (now : Nat) (q : List BlpQueueItem) r q2,
        claim_next w now q = (some r, q2) →
        r.status = QueueStatus.processing ∧ r.worker_id = some w) ∧
    (∀ (threshold : Nat) (j : BlpQueueItem),
        stuckFilter threshold j = true →
        reset_stuck_items threshold [j] =
          [{ j with
              status := QueueStatus.pending
              worker_id := none
              retry_count := j.retry_count + 1 }]) := by
  refine ⟨?_, ?_, ?_⟩
  · intro q q2 hstep hinv
    cases hstep with
    | insert q u c m ii it atts cb qu z sm now =>
      intro j hj hproc
      rcases List.mem_append.mp hj with hj | hj
      · exact hinv j hj hproc
      · rcases List.mem_cons.mp hj with hj | hj
        · rw [hj] at hproc
          simp [BlpQueueItem.new] at hproc
        · simp at hj
    | claim w now q =>
      intro j hj hproc
      rcases findOneAndUpdate_mem_snd _ _ _ q j hj with hl | ⟨pre, _, _, hje⟩
      · exact hinv j hl hproc
      · rw [hje]
        simp [blpClaimUpdate]
    | complete i now q =>
      intro j hj hproc
      rcases updateById_mem _ _ _ q j hj with hl | ⟨x, hx, hje⟩
      · exact hinv j hl hproc
      · rw [hje] at hproc
        simp [completeDoc] at hproc
    | fail i err now q =>
      intro j hj hproc
      rcases updateById_mem _ _ _ q j hj with hl | ⟨x, hx, hje⟩
      · exact hinv j hl hproc
      · rw [hje] at hproc
        simp [failDoc] at hproc
    | sweep threshold q =>
      intro j hj hproc
      rw [reset_stuck_items] at hj
      rcases List.mem_map.mp hj with ⟨x, hx, hje⟩
      by_cases hs : stuckFilter threshold x = true
      · rw [if_pos hs] at hje
        rw [← hje] at hproc
        simp at hproc
      · rw [if_neg hs] at hje
        rw [← hje]
        exact hinv x hx (by rw [hje]; exact hproc)
  · intro w now q r q2 h
    obtain ⟨_, pre, _, _, _, _, hr, _, _⟩ :=
      findOneAndUpdate_some _ _ _ q r q2 h
    rw [hr]
    exact ⟨rfl, rfl⟩
  · intro threshold j hs
    rw [reset_stuck_items]
    simp [hs]

/-- C4 witness: the invariant holds after claiming from the concrete demo
queue; the claim conjunct applied to the same queue; the sweep conjunct
applied to the concrete stuck item with threshold 5. -/
theorem C4_worker_id_invariant_witness :
    WorkerInv (claim_next "w" 5 [demoBlpJob]).2 ∧
    (claimedDemoBlp.status = QueueStatus.processing ∧
      claimedDemoBlp.worker_id = some "w") ∧
    reset_stuck_items 5 [demoStuckBlp] =
      [{ demoStuckBlp with
          status := QueueStatus.pending
          worker_id := none
          retry_count := demoStuckBlp.retry_count + 1 }] := by
  refine ⟨?_, ?_, ?_⟩
  · exact C4_worker_id_invariant.1 [demoBlpJob] _
      (BlpStep.claim "w" 5 [demoBlpJob])
      (by intro j hj hproc; fin_cases hj; simp_all [demoBlpJob])
  · exact C4_worker_id_invariant.2.1 "w" 5 [demoBlpJob] claimedDemoBlp
      [claimedDemoBlp] (by decide)
  · exact C4_worker_id_invariant.2.2 5 demoStuckBlp (by decide)

/-- C2 counterexample: the claim states the job is never marked completed
before the send outcome is known and that a send failure marks it failed.
In the BLP worker (`src/workers/blp/processor.rs` lines 66–75) a concrete
run with a failing PATCH produces the effect trace claimed → markCompleted
→ patchSend(false): the completed mark precedes the send, no mark-failed
is ever written, and the queue ends with the job completed. -/
theorem C2_counterexample :
    (blpProcessQueueItem "w" 5 9 "ts" demoConvOk false [demoBlpJob]).2.1 =
      [ProcEvent.claimed "w", ProcEvent.markCompleted,
        ProcEvent.patchSend false] ∧
    hasMarkFailed
      (blpProcessQueueItem "w" 5 9 "ts" demoConvOk false
        [demoBlpJob]).2.1 = false ∧
    (blpProcessQueueItem "w" 5 9 "ts" demoConvOk false [demoBlpJob]).2.2 =
      [{ demoBlpJob with
          status := QueueStatus.completed
          worker_id := some "w"
          started_at := some 5
          completed_at := some 9 }] := by
  refine ⟨by decide, by decide, by decide⟩

/-- C2 (amended): the ordering of the final PATCH and the terminal mark
differs per worker. The legacy REMBG worker behaves as claimed: it sends
first and marks completed exactly on send success, failed on send failure.
The new REMBG worker marks completed only after a successful PATCH, but a
send failure propagates without any mark-failed. The BLP worker marks the
job completed BEFORE attempting the PATCH, and a send failure is only
logged. -/
theorem C2_terminal_mark_vs_send :
    (∀ w : String, legacyRembgProcessItemTrace w (Except.ok ()) true =
      [ProcEvent.claimed w, ProcEvent.patchSend true,
        ProcEvent.markCompleted]) ∧
    (∀ w : String, legacyRembgProcessItemTrace w (Except.ok ()) false =
      [ProcEvent.claimed w, ProcEvent.patchSend false,
        ProcEvent.markFailed "Failed to send response"]) ∧
    (∀ (w e : String) (sendOk : Bool),
      legacyRembgProcessItemTrace w (Except.error e) sendOk =
        [ProcEvent.claimed w, ProcEvent.markFailed e]) ∧
    (rembgSendPhaseTrace true =
      [ProcEvent.patchSend true, ProcEvent.markCompleted]) ∧
    (rembgSendPhaseTrace false = [ProcEvent.patchSend false] ∧
      hasMarkFailed (rembgSendPhaseTrace false) = false) ∧
    (∀ (w : String) (now now2 : Nat) (ts : String)
      (conv : Attachment → Except String (String × Bytes)) (sendOk : Bool)
      (q : List BlpQueueItem) (item : BlpQueueItem)
      (q1 : List BlpQueueItem),
      claim_next w now q = (some item, q1) →
      blpProcessQueueItem w now now2 ts conv sendOk q =
        (true,
          [ProcEvent.claimed w, ProcEvent.markCompleted,
            ProcEvent.patchSend sendOk],
          mark_completed (item.id.getD 0) now2 q1)) := by
  refine ⟨fun w => rfl, fun w => rfl, fun w e s => rfl, rfl,
    ⟨rfl, rfl⟩, ?_⟩
  intro w now now2 ts conv sendOk q item q1 h
  unfold blpProcessQueueItem
  rw [h]
  rfl

/-- C2 witness: the BLP conjunct applied to the concrete demo queue, whose
claim succeeds. -/
theorem C2_terminal_mark_vs_send_witness :
    blpProcessQueueItem "w" 5 9 "ts" demoConvOk true [demoBlpJob] =
      (true,
        [ProcEvent.claimed "w", ProcEvent.markCompleted,
          ProcEvent.patchSend true],
        mark_completed 1 9 [claimedDemoBlp]) :=
  C2_terminal_mark_vs_send.2.2.2.2.2 "w" 5 9 "ts" demoConvOk true
    [demoBlpJob] claimedDemoBlp [claimedDemoBlp] (by decide)

/-- The processing loop produces exactly one product per attachment. -/
theorem processAttachmentsGo_length (ts : String) :
    ∀ (outcomes : List AttachOutcome) (m : List (String × Nat)),
      (processAttachmentsGo ts m outcomes).length = outcomes.length := by
  intro outcomes
  induction outcomes with
  | nil => intro m; rfl
  | cons a rest ih =>
    intro m
    rw [processAttachmentsGo]
    cases h : a.result with
    | ok v =>
      cases v with
      | mk f b => simp only [List.length_cons, ih]
    | error e => simp only [List.length_cons, ih]

/-- A failing attachment at position `i` yields, at the same position, an
error product: its body is the error text and its name is
`stem.error.txt`, or `stem.error_N.txt` after deduplication. -/
theorem processAttachmentsGo_error (ts : String) :
    ∀ (outcomes : List AttachOutcome) (m : List (String × Nat)) (i : Nat)
      (a : AttachOutcome) (e : String),
      outcomes.get? i = some a → a.result = Except.error e →
      ∃ name,
        (processAttachmentsGo ts m outcomes).get? i =
          some (name, errorContent a.att.filename e ts) ∧
        (name = errorStem a.att.filename ++ ".error.txt" ∨
          ∃ c : Nat, name = errorStem a.att.filename ++ ".error_" ++
            toString c ++ ".txt") := by
  intro outcomes
  induction outcomes with
  | nil => intro m i a e hget _; simp at hget
  | cons x rest ih =>
    intro m i a e hget hres
    cases i with
    | zero =>
      have hx : x = a := by simpa using hget
      subst hx
      rw [processAttachmentsGo, hres]
      by_cases hdup :
          (bumpCount m (errorStem x.att.filename ++ ".error.txt")).1 > 1
      · refine ⟨errorStem x.att.filename ++ ".error_" ++
          toString (bumpCount m
            (errorStem x.att.filename ++ ".error.txt")).1 ++ ".txt",
          ?_, Or.inr ⟨_, rfl⟩⟩
        simp only [if_pos hdup, List.get?_cons_zero]
      · refine ⟨errorStem x.att.filename ++ ".error.txt",
          ?_, Or.inl rfl⟩
        simp only [if_neg hdup, List.get?_cons_zero]
    | succ n =>
      have hget2 : rest.get? n = some a := by simpa using hget
      rw [processAttachmentsGo]
      cases hx : x.result with
      | ok v =>
        cases v with
        | mk f b =>
          simpa using ih (bumpCount m f).2 n a e hget2 hres
      | error ex =>
        simpa using
          ih (bumpCount m (errorStem x.att.filename ++ ".error.txt")).2
            n a e hget2 hres

/-- C3 counterexample: the claim states that after per-attachment errors
the job STILL transitions to completed. In the new REMBG worker
(`src/workers/rembg/processor.rs`) a concrete run whose single attachment
fails conversion does produce the `b.error.txt` product — but with a
failing PATCH the effect trace is just the failed send: no
mark-completed and no mark-failed is ever written (the send error
propagates at line 269 before the completed update of lines 274–284), so
the job does not transition to completed. -/
theorem C3_counterexample :
    (rembgProcessWithReply ConversionTarget.PNG "ts" [demoRembgOutcome]
        false).1 =
      [("b.error.txt", errorContent "b.png" "bad magic" "ts")] ∧
    (rembgProcessWithReply ConversionTarget.PNG "ts" [demoRembgOutcome]
        false).2 = [ProcEvent.patchSend false] ∧
    ProcEvent.markCompleted ∉
      (rembgProcessWithReply ConversionTarget.PNG "ts" [demoRembgOutcome]
        false).2 ∧
    hasMarkFailed
      (rembgProcessWithReply ConversionTarget.PNG "ts" [demoRembgOutcome]
        false).2 = false := by
  refine ⟨by decide, by decide, by decide, by decide⟩

/-- C3 (amended): a per-attachment download or codec error never fails
the job and is converted into a `stem.error.txt` product while processing
continues, in both the BLP and the REMBG pipelines. In the BLP pipeline
`process_attachments` always returns `Ok` with exactly one product per
attachment — every failing attachment contributing an `.error.txt`
product (possibly `.error_N.txt` after dedup) carrying the error text —
and the worker then still takes the mark-completed path, whose document
update sets `status = completed` without touching `retry_count` (retry
stays 0 on a first run). In the new REMBG pipeline the attachment loop
likewise yields one product per attachment, download and conversion
errors becoming `stem.error.txt` products, but the job is marked
completed (again with retry untouched) ONLY when the final PATCH
succeeds; a send failure writes no terminal mark. -/
theorem C3_attachment_errors_never_fail_job :
    (∀ (ts : String) (outcomes : List AttachOutcome),
      ∃ out, process_attachments ts outcomes = Except.ok out ∧
        out.length = outcomes.length ∧
        (∀ (i : Nat) (a : AttachOutcome) (e : String),
          outcomes.get? i = some a → a.result = Except.error e →
          ∃ name, out.get? i =
              some (name, errorContent a.att.filename e ts) ∧
            (name = errorStem a.att.filename ++ ".error.txt" ∨
              ∃ c : Nat, name = errorStem a.att.filename ++ ".error_" ++
                toString c ++ ".txt"))) ∧
    (∀ (w : String) (now now2 : Nat) (ts : String)
      (conv : Attachment → Except String (String × Bytes)) (sendOk : Bool)
      (q : List BlpQueueItem) (item : BlpQueueItem)
      (q1 : List BlpQueueItem),
      claim_next w now q = (some item, q1) →
      (blpProcessQueueItem w now now2 ts conv sendOk q).2.2 =
        mark_completed (item.id.getD 0) now2 q1) ∧
    (∀ (now : Nat) (j : BlpQueueItem),
      (completeDoc now j).status = QueueStatus.completed ∧
      (completeDoc now j).retry_count = j.retry_count) ∧
    (∀ (target : ConversionTarget) (ts : String)
      (outcomes : List RembgAttachOutcome),
      (rembgConvertLoop target ts outcomes).length = outcomes.length ∧
      (∀ (i : Nat) (a : RembgAttachOutcome), outcomes.get? i = some a →
        (∀ e, a.download_error = some e →
          (rembgConvertLoop target ts outcomes).get? i =
            some (a.filename_stem ++ ".error.txt",
              downloadErrorContent a.filename e ts)) ∧
        (∀ e, a.download_error = none → a.conv = Except.error e →
          (rembgConvertLoop target ts outcomes).get? i =
            some (a.filename_stem ++ ".error.txt",
              errorContent a.filename e ts)))) ∧
    (∀ sendOk : Bool,
      (ProcEvent.markCompleted ∈ rembgSendPhaseTrace sendOk ↔
        sendOk = true) ∧
      hasMarkFailed (rembgSendPhaseTrace sendOk) = false) ∧
    (∀ (now : Nat) (j : JobRembg),
      (rembgCompleteDoc now j).status = QueueStatus.completed ∧
      (rembgCompleteDoc now j).retry = j.retry) := by
  refine ⟨?_, ?_, ?_, ?_, ?_, ?_⟩
  · intro ts outcomes
    refine ⟨processAttachmentsGo ts [] outcomes, rfl,
      processAttachmentsGo_length ts outcomes [], ?_⟩
    intro i a e hget hres
    exact processAttachmentsGo_error ts outcomes [] i a e hget hres
  · intro w now now2 ts conv sendOk q item q1 h
    unfold blpProcessQueueItem
    rw [h]
    rfl
  · intro now j
    exact ⟨rfl, rfl⟩
  · intro target ts outcomes
    refine ⟨by simp [rembgConvertLoop], ?_⟩
    intro i a hget
    constructor
    · intro e hde
      rw [rembgConvertLoop.eq_def, List.get?_map, hget]
      simp [hde]
    · intro e hde hconv
      rw [rembgConvertLoop.eq_def, List.get?_map, hget]
      simp [hde, hconv]
  · intro sendOk
    cases sendOk <;> simp [rembgSendPhaseTrace, hasMarkFailed]
  · intro now j
    exact ⟨rfl, rfl⟩

/-- C3 witness: the characterization applied to the concrete demo inputs:
one good and one failing BLP attachment, the failing one producing
`b.error.txt` with the error body, the demo BLP queue run ending
completed with retry unchanged, and the REMBG conjuncts applied to the
failing demo conversion and a succeeding send. -/
theorem C3_attachment_errors_never_fail_job_witness :
    (∃ out, process_attachments "ts" demoOutcomes = Except.ok out ∧
      out.length = 2 ∧
      ∃ name, out.get? 1 =
          some (name, errorContent "b.png" "bad magic" "ts") ∧
        (name = errorStem "b.png" ++ ".error.txt" ∨
          ∃ c : Nat, name = errorStem "b.png" ++ ".error_" ++
            toString c ++ ".txt")) ∧
    (blpProcessQueueItem "w" 5 9 "ts" demoConvOk true [demoBlpJob]).2.2 =
      mark_completed 1 9 [claimedDemoBlp] ∧
    ((completeDoc 9 claimedDemoBlp).status = QueueStatus.completed ∧
      (completeDoc 9 claimedDemoBlp).retry_count =
        claimedDemoBlp.retry_count) ∧
    (rembgConvertLoop ConversionTarget.PNG "ts" [demoRembgOutcome]).get? 0 =
      some ("b" ++ ".error.txt", errorContent "b.png" "bad magic" "ts") ∧
    ProcEvent.markCompleted ∈ rembgSendPhaseTrace true ∧
    ((rembgCompleteDoc 9 demoJobRembg).status = QueueStatus.completed ∧
      (rembgCompleteDoc 9 demoJobRembg).retry = demoJobRembg.retry) := by
  refine ⟨?_, ?_, ?_, ?_, ?_, ?_⟩
  · obtain ⟨out, hok, hlen, herr⟩ :=
      C3_attachment_errors_never_fail_job.1 "ts" demoOutcomes
    obtain ⟨name, hname, hshape⟩ :=
      herr 1 ⟨⟨"2", "u2", "b.png"⟩, Except.error "bad magic"⟩ "bad magic"
        rfl rfl
    exact ⟨out, hok, hlen, name, hname, hshape⟩
  · exact C3_attachment_errors_never_fail_job.2.1 "w" 5 9 "ts" demoConvOk
      true [demoBlpJob] claimedDemoBlp [claimedDemoBlp] (by decide)
  · exact C3_attachment_errors_never_fail_job.2.2.1 9 claimedDemoBlp
  · exact ((C3_attachment_errors_never_fail_job.2.2.2.1
      ConversionTarget.PNG "ts" [demoRembgOutcome]).2 0 demoRembgOutcome
        rfl).2 "bad magic" rfl rfl
  · exact (C3_attachment_errors_never_fail_job.2.2.2.2.1 true).1.mpr rfl
  · exact C3_attachment_errors_never_fail_job.2.2.2.2.2 9 demoJobRembg

/-- One acquire iteration does not change capacity or rate, and stamps the
refill instant. -/
theorem acquireStep_fields (rl : RateLimiter) (now : ℚ) :
    (acquireStep rl now).2.1.max_tokens = rl.max_tokens ∧
    (acquireStep rl now).2.1.refill_rate = rl.refill_rate ∧
    (acquireStep rl now).2.1.last_refill = now := by
  unfold acquireStep
  split <;> exact ⟨rfl, rfl, rfl⟩

/-- Token nonnegativity is preserved by one acquire iteration under
monotone time. -/
theorem acquireStep_tokens_nonneg (rl : RateLimiter) (now : ℚ)
    (h0 : 0 ≤ rl.tokens) (hr : 0 ≤ rl.refill_rate)
    (hm : 0 ≤ rl.max_tokens) (hle : rl.last_refill ≤ now) :
    0 ≤ (acquireStep rl now).2.1.tokens := by
  have hrefill : 0 ≤ refillTokens rl now := by
    apply le_min
    · have : 0 ≤ (now - rl.last_refill) * rl.refill_rate :=
        mul_nonneg (by linarith) hr
      linarith
    · exact hm
  unfold acquireStep
  split
  · next h => simp only; linarith
  · next h => simp only; exact hrefill

/-- A run preserves capacity and rate. -/
theorem acquireRun_fields (ts : List ℚ) :
    ∀ rl : RateLimiter,
      (acquireRun rl ts).2.max_tokens = rl.max_tokens ∧
      (acquireRun rl ts).2.refill_rate = rl.refill_rate := by
  induction ts with
  | nil => intro rl; exact ⟨rfl, rfl⟩
  | cons t ts ih =>
    intro rl
    have hs := acquireStep_fields rl t
    have hr := ih (acquireStep rl t).2.1
    exact ⟨hr.1.trans hs.1, hr.2.trans hs.2.1⟩

/-- The final refill instant of a run is the initial one or one of the
iteration instants. -/
theorem acquireRun_last_mem (ts : List ℚ) :
    ∀ rl : RateLimiter,
      (acquireRun rl ts).2.last_refill = rl.last_refill ∨
      (acquireRun rl ts).2.last_refill ∈ ts := by
  induction ts with
  | nil => intro rl; exact Or.inl rfl
  | cons t ts ih =>
    intro rl
    have hrun : (acquireRun rl (t :: ts)).2 =
        (acquireRun (acquireStep rl t).2.1 ts).2 := rfl
    rcases ih (acquireStep rl t).2.1 with h | h
    · rw [(acquireStep_fields rl t).2.2] at h
      right
      rw [hrun, h]
      exact List.mem_cons_self t ts
    · right
      rw [hrun]
      exact List.mem_cons_of_mem t h

/-- Token nonnegativity is preserved by a whole run under monotone
times. -/
theorem acquireRun_tokens_nonneg (ts : List ℚ) :
    ∀ rl : RateLimiter,
      0 ≤ rl.tokens → 0 ≤ rl.refill_rate → 0 ≤ rl.max_tokens →
      List.Chain' (· ≤ ·) (rl.last_refill :: ts) →
      0 ≤ (acquireRun rl ts).2.tokens := by
  induction ts with
  | nil => intro rl h0 _ _ _; exact h0
  | cons t ts ih =>
    intro rl h0 hr hm hc
    have hle : rl.last_refill ≤ t := (List.chain'_cons.mp hc).1
    have hchain : List.Chain' (· ≤ ·) (t :: ts) := (List.chain'_cons.mp hc).2
    have hf := acquireStep_fields rl t
    refine ih (acquireStep rl t).2.1
      (acquireStep_tokens_nonneg rl t h0 hr hm hle)
      (by rw [hf.2.1]; exact hr) (by rw [hf.1]; exact hm) ?_
    rw [hf.2.2]
    exact hchain

/-- Counting bound for a run: successes plus leftover tokens are bounded
by the initial tokens plus the refill accumulated between the initial and
the final refill instants. -/
theorem acquireRun_count_le (ts : List ℚ) :
    ∀ rl : RateLimiter,
      0 ≤ rl.tokens → 0 ≤ rl.refill_rate → 0 ≤ rl.max_tokens →
      List.Chain' (· ≤ ·) (rl.last_refill :: ts) →
      ((acquireRun rl ts).1 : ℚ) + (acquireRun rl ts).2.tokens ≤
        rl.tokens + rl.refill_rate *
          ((acquireRun rl ts).2.last_refill - rl.last_refill) := by
  induction ts with
  | nil =>
    intro rl h0 hr hm _
    simp [acquireRun]
  | cons t ts ih =>
    intro rl h0 hr hm hc
    have hle : rl.last_refill ≤ t := (List.chain'_cons.mp hc).1
    have hchain : List.Chain' (· ≤ ·) (t :: ts) := (List.chain'_cons.mp hc).2
    have hf := acquireStep_fields rl t
    have hihyp := ih (acquireStep rl t).2.1
      (acquireStep_tokens_nonneg rl t h0 hr hm hle)
      (by rw [hf.2.1]; exact hr) (by rw [hf.1]; exact hm)
      (by rw [hf.2.2]; exact hchain)
    rw [hf.2.1, hf.2.2] at hihyp
    have hrefill_le : refillTokens rl t ≤
        rl.tokens + (t - rl.last_refill) * rl.refill_rate :=
      min_le_left _ _
    have hsplit : rl.refill_rate *
        ((acquireRun (acquireStep rl t).2.1 ts).2.last_refill -
          rl.last_refill) =
        rl.refill_rate *
          ((acquireRun (acquireStep rl t).2.1 ts).2.last_refill - t) +
        (t - rl.last_refill) * rl.refill_rate := by ring
    have hrun : acquireRun rl (t :: ts) =
        ((if (acquireStep rl t).1 then 1 else 0) +
            (acquireRun (acquireStep rl t).2.1 ts).1,
          (acquireRun (acquireStep rl t).2.1 ts).2) := rfl
    rw [hrun]
    simp only
    unfold acquireStep at *
    split at hihyp
    next hok =>
      simp only at hihyp ⊢
      rw [if_pos hok] at *
      simp only [if_true]
      push_cast
      -- tokens after the successful step: refill minus the consumed one
      linarith
    next hfail =>
      simp only at hihyp ⊢
      rw [if_neg hfail] at *
      simp only [if_false]
      push_cast
      linarith

/-- C5: the acquire loop of the rate limiter. One iteration refills by
`min(capacity, tokens + elapsed · rate)` on monotonic time; it succeeds
exactly when at least one token is available, consuming exactly one, and
otherwise leaves the refilled tokens and backs off 50 ms; the token count
never exceeds capacity; and over any window of width `W ≥ 0` the number of
successful acquires is at most `capacity + rate · W`. -/
theorem C5_rate_limiter_acquire :
    (∀ (rl : RateLimiter) (now : ℚ),
      (acquireStep rl now).2.1.tokens ≤ rl.max_tokens) ∧
    (∀ (rl : RateLimiter) (now : ℚ),
      ((acquireStep rl now).1 = true ↔ 1 ≤ refillTokens rl now) ∧
      ((acquireStep rl now).1 = true →
        (acquireStep rl now).2.1.tokens = refillTokens rl now - 1 ∧
        (acquireStep rl now).2.2 = 0) ∧
      ((acquireStep rl now).1 = false →
        (acquireStep rl now).2.1.tokens = refillTokens rl now ∧
        (acquireStep rl now).2.2 = 50)) ∧
    (∀ (ts : List ℚ) (rl : RateLimiter) (a W : ℚ),
      0 ≤ rl.tokens → rl.tokens ≤ rl.max_tokens →
      0 ≤ rl.refill_rate → 0 ≤ rl.max_tokens → 0 ≤ W →
      List.Chain' (· ≤ ·) (rl.last_refill :: ts) →
      (∀ x ∈ ts, a ≤ x ∧ x ≤ a + W) →
      ((acquireRun rl ts).1 : ℚ) ≤
        rl.max_tokens + rl.refill_rate * W) := by
  refine ⟨?_, ?_, ?_⟩
  · intro rl now
    have hmin : refillTokens rl now ≤ rl.max_tokens := min_le_right _ _
    unfold acquireStep
    split
    · next h => simp only; linarith
    · next h => simp only; exact hmin
  · intro rl now
    refine ⟨?_, ?_, ?_⟩
    · unfold acquireStep
      split
      · next h => simp [h]
      · next h => simp [h]
    · intro h
      unfold acquireStep at h ⊢
      split at h
      · next hok => rw [if_pos hok]; exact ⟨rfl, rfl⟩
      · next hok => simp at h
    · intro h
      unfold acquireStep at h ⊢
      split at h
      · next hok => simp at h
      · next hok => rw [if_neg hok]; exact ⟨rfl, rfl⟩
  · intro ts rl a W h0 hcap hr hm hW hc hwin
    cases ts with
    | nil =>
      have : 0 ≤ rl.refill_rate * W := mul_nonneg hr hW
      simp [acquireRun]
      linarith
    | cons t rest =>
      have hle : rl.last_refill ≤ t := (List.chain'_cons.mp hc).1
      have hchain : List.Chain' (· ≤ ·) (t :: rest) :=
        (List.chain'_cons.mp hc).2
      have hf := acquireStep_fields rl t
      have hcount := acquireRun_count_le rest (acquireStep rl t).2.1
        (acquireStep_tokens_nonneg rl t h0 hr hm hle)
        (by rw [hf.2.1]; exact hr) (by rw [hf.1]; exact hm)
        (by rw [hf.2.2]; exact hchain)
      rw [hf.2.1, hf.2.2] at hcount
      have hnonneg := acquireRun_tokens_nonneg rest (acquireStep rl t).2.1
        (acquireStep_tokens_nonneg rl t h0 hr hm hle)
        (by rw [hf.2.1]; exact hr) (by rw [hf.1]; exact hm)
        (by rw [hf.2.2]; exact hchain)
      -- the final refill instant lies inside the window
      have hlastmem := acquireRun_last_mem rest (acquireStep rl t).2.1
      have hlast_le :
          (acquireRun (acquireStep rl t).2.1 rest).2.last_refill ≤ a + W := by
        rcases hlastmem with h | h
        · rw [hf.2.2] at h
          rw [h]
          exact (hwin t (List.mem_cons_self t rest)).2
        · exact (hwin _ (List.mem_cons_of_mem t h)).2
      have ht_ge : a ≤ t := (hwin t (List.mem_cons_self t rest)).1
      have hwidth :
          (acquireRun (acquireStep rl t).2.1 rest).2.last_refill - t ≤ W := by
        linarith
      have hmul : rl.refill_rate *
          ((acquireRun (acquireStep rl t).2.1 rest).2.last_refill - t) ≤
          rl.refill_rate * W :=
        mul_le_mul_of_nonneg_left hwidth hr
      have hrefill_cap : refillTokens rl t ≤ rl.max_tokens := min_le_right _ _
      have hrun : acquireRun rl (t :: rest) =
          ((if (acquireStep rl t).1 then 1 else 0) +
              (acquireRun (acquireStep rl t).2.1 rest).1,
            (acquireRun (acquireStep rl t).2.1 rest).2) := rfl
      rw [hrun]
      simp only
      unfold acquireStep at *
      split at hcount
      next hok =>
        simp only at hcount ⊢
        rw [if_pos hok] at *
        simp only [if_true]
        push_cast
        linarith
      next hfail =>
        simp only at hcount ⊢
        rw [if_neg hfail] at *
        simp only [if_false]
        push_cast
        linarith

/-- C5 witness: a concrete run of the demo limiter (capacity 2, rate 2)
at four instants inside the unit window starting at 0, together with the
step facts at a concrete instant. -/
theorem C5_rate_limiter_acquire_witness :
    (acquireStep demoLimiter 0).2.1.tokens ≤ demoLimiter.max_tokens ∧
    ((acquireStep demoLimiter 0).1 = true ↔
      1 ≤ refillTokens demoLimiter 0) ∧
    ((acquireRun demoLimiter [0, 0, 0, 0]).1 : ℚ) ≤
      demoLimiter.max_tokens + demoLimiter.refill_rate * 1 := by
  refine ⟨C5_rate_limiter_acquire.1 demoLimiter 0,
    (C5_rate_limiter_acquire.2.1 demoLimiter 0).1, ?_⟩
  exact C5_rate_limiter_acquire.2.2 [0, 0, 0, 0] demoLimiter 0 1
    (by norm_num [demoLimiter, RateLimiter.new])
    (by norm_num [demoLimiter, RateLimiter.new])
    (by norm_num [demoLimiter, RateLimiter.new])
    (by norm_num [demoLimiter, RateLimiter.new])
    (by norm_num)
    (by simp [demoLimiter, RateLimiter.new, List.chain'_cons])
    (by intro x hx; simp at hx; simp [hx])

/-- Heartbeats are emitted only by tick iterations, and carry exactly the
current in-memory sequence. -/
theorem handleLoopEvt_heartbeats (mem : BotState)
    (store : Option DiscordState) (evt : LoopEvt) :
    ∀ sq, GwAction.sendHeartbeat sq ∈ (handleLoopEvt mem store evt).2.1 →
      evt = LoopEvt.tick ∧ sq = mem.sequence := by
  intro sq hmem
  cases evt with
  | tick =>
    refine ⟨rfl, ?_⟩
    simp [handleLoopEvt] at hmem
    exact hmem
  | textFrame e =>
    exfalso
    cases hs : e.s with
    | none =>
      cases hop : Opcode.from_u8 e.op <;>
        simp_all [handleLoopEvt]
    | some v =>
      cases hop : Opcode.from_u8 e.op <;>
        simp_all [handleLoopEvt]
  | otherFrame => simp [handleLoopEvt] at hmem

/-- When a text-frame iteration continues the loop, its state is exactly
the update-sequence state (the invalid-session branch is the only one that
stops). -/
theorem handleLoopEvt_textFrame_cont (mem : BotState)
    (store : Option DiscordState) (ev : DiscordEvent) :
    (handleLoopEvt mem store (LoopEvt.textFrame ev)).2.2 = true →
      (handleLoopEvt mem store (LoopEvt.textFrame ev)).1.1 =
        (update_sequence ev.s mem store).1 ∧
      (handleLoopEvt mem store (LoopEvt.textFrame ev)).1.2 =
        (update_sequence ev.s mem store).2 := by
  intro hcont
  simp only [handleLoopEvt] at hcont ⊢
  cases hop : Opcode.from_u8 ev.op
  case invalidSession =>
    rw [hop] at hcont
    exact absurd (show (false : Bool) = true from hcont) (by decide)
  all_goals exact ⟨rfl, rfl⟩

/-- Once the in-memory sequence is at least `v` and every later frame
carries a sequence of at least `v`, every heartbeat of the rest of the
loop carries a sequence of at least `v`. -/
theorem runGatewayLoop_heartbeat_ge (es : List LoopEvt) :
    ∀ (mem : BotState) (store : Option DiscordState) (v : Nat),
      (∃ u, mem.sequence = some u ∧ v ≤ u) →
      (∀ w ∈ frameSeqs es, v ≤ w) →
      ∀ sq, GwAction.sendHeartbeat sq ∈ (runGatewayLoop mem store es).2 →
        ∃ u, sq = some u ∧ v ≤ u := by
  induction es with
  | nil =>
    intro mem store v _ _ sq hmem
    simp [runGatewayLoop] at hmem
  | cons e es ih =>
    intro mem store v hseq hframes sq hmem
    rw [runGatewayLoop] at hmem
    by_cases hcont : (handleLoopEvt mem store e).2.2 = true
    · rw [if_pos hcont] at hmem
      simp only [List.mem_append] at hmem
      rcases hmem with hmem | hmem
      · obtain ⟨het, hsq⟩ := handleLoopEvt_heartbeats mem store e sq hmem
        obtain ⟨u, hu, hvu⟩ := hseq
        exact ⟨u, by rw [hsq, hu], hvu⟩
      · -- tail of the loop: the state invariant is preserved
        refine ih (handleLoopEvt mem store e).1.1
          (handleLoopEvt mem store e).1.2 v ?_ ?_ sq hmem
        · cases e with
          | tick => exact hseq
          | otherFrame => exact hseq
          | textFrame ev =>
            obtain ⟨hmem1, _⟩ :=
              handleLoopEvt_textFrame_cont mem store ev hcont
            rw [hmem1]
            cases hs : ev.s with
            | none => exact hseq
            | some w =>
              have hw : v ≤ w := by
                apply hframes
                rw [frameSeqs, hs]
                exact List.mem_append.mpr (Or.inl (List.mem_singleton.mpr rfl))
              exact ⟨w, rfl, hw⟩
        · intro w hw
          apply hframes
          cases e with
          | tick => exact hw
          | otherFrame => exact hw
          | textFrame ev =>
            rw [frameSeqs]
            exact List.mem_append.mpr (Or.inr hw)
    · rw [if_neg hcont] at hmem
      obtain ⟨het, hsq⟩ := handleLoopEvt_heartbeats mem store e sq hmem
      obtain ⟨u, hu, hvu⟩ := hseq
      exact ⟨u, by rw [hsq, hu], hvu⟩

/-- C6: for every inbound text frame carrying sequence `s`, the sequence
is persisted FIRST — the persist action heads the iteration actions, and
(unless the frame is an invalid-session, which ends the loop with no
further outbound frames) both the in-memory and the stored sequence equal
`s` when the opcode handling runs; consequently, provided the inbound
sequence numbers never decrease below `s` afterwards, every later
outbound heartbeat carries a sequence of at least `s`. -/
theorem C6_sequence_persisted_before_dispatch :
    (∀ (mem : BotState) (store : Option DiscordState) (e : DiscordEvent)
      (v : Nat), e.s = some v →
      (handleLoopEvt mem store (LoopEvt.textFrame e)).2.1.head? =
        some (GwAction.persistSequence v) ∧
      (Opcode.from_u8 e.op ≠ Opcode.invalidSession →
        (handleLoopEvt mem store (LoopEvt.textFrame e)).1.1.sequence =
          some v ∧
        (DiscordState.load
          (handleLoopEvt mem store (LoopEvt.textFrame e)).1.2).sequence =
          some v)) ∧
    (∀ (mem : BotState) (store : Option DiscordState) (e : DiscordEvent)
      (v : Nat) (post : List LoopEvt),
      e.s = some v →
      (∀ w ∈ frameSeqs post, v ≤ w) →
      ∀ sq, GwAction.sendHeartbeat sq ∈
          (runGatewayLoop mem store (LoopEvt.textFrame e :: post)).2 →
        ∃ u, sq = some u ∧ v ≤ u) := by
  constructor
  · intro mem store e v hs
    constructor
    · cases hop : Opcode.from_u8 e.op <;>
        simp [handleLoopEvt, hs, hop]
    · intro hnotinv
      cases hop : Opcode.from_u8 e.op <;>
        simp_all [handleLoopEvt, update_sequence, save_state,
          DiscordState.save, DiscordState.load]
  · intro mem store e v post hs hframes sq hmem
    rw [runGatewayLoop] at hmem
    by_cases hcont :
        (handleLoopEvt mem store (LoopEvt.textFrame e)).2.2 = true
    · rw [if_pos hcont] at hmem
      simp only [List.mem_append] at hmem
      rcases hmem with hmem | hmem
      · exact absurd (handleLoopEvt_heartbeats mem store _ sq hmem).1
          (by intro h; cases h)
      · refine runGatewayLoop_heartbeat_ge post
          (handleLoopEvt mem store (LoopEvt.textFrame e)).1.1
          (handleLoopEvt mem store (LoopEvt.textFrame e)).1.2 v ?_ hframes
          sq hmem
        obtain ⟨hmem1, _⟩ :=
          handleLoopEvt_textFrame_cont mem store e hcont
        rw [hmem1, hs]
        exact ⟨v, rfl, le_refl v⟩
    · rw [if_neg hcont] at hmem
      exact absurd (handleLoopEvt_heartbeats mem store _ sq hmem).1
        (by intro h; cases h)

/-- C6 witness: a concrete dispatch frame with sequence 42 followed by a
tick; the persist action heads the frame handling, the persisted sequence
is 42, and the heartbeat after it carries sequence 42. -/
theorem C6_sequence_persisted_before_dispatch_witness :
    (handleLoopEvt ⟨some 1, some "S", none⟩ none
        (LoopEvt.textFrame ⟨0, some 42⟩)).2.1.head? =
      some (GwAction.persistSequence 42) ∧
    ∃ u, (some 42 : Option Nat) = some u ∧ 42 ≤ u := by
  constructor
  · exact (C6_sequence_persisted_before_dispatch.1 ⟨some 1, some "S", none⟩
      none ⟨0, some 42⟩ 42 rfl).1
  · exact C6_sequence_persisted_before_dispatch.2 ⟨some 1, some "S", none⟩
      none ⟨0, some 42⟩ 42 [LoopEvt.tick] rfl
      (by intro w hw; simp [frameSeqs] at hw) (some 42)
      (by decide)

/-- C7: on hello the session sends RESUME carrying the persisted session
id and sequence exactly when a persisted session id exists, and otherwise
IDENTIFY with intents 33280; and on an invalid-session frame both the
persisted session id and sequence become none (in memory and in the
store) and the loop returns. -/
theorem C7_hello_resume_identify_invalid_session :
    (∀ (token sid : String) (seq : Option Nat),
      helloOutbound token (some sid) seq =
        GwOutbound.resume token sid seq) ∧
    (∀ (token : String) (seq : Option Nat),
      helloOutbound token none seq = GwOutbound.identify token 33280) ∧
    (∀ (token : String) (session : Option String) (seq : Option Nat),
      (∃ sid, session = some sid ∧
        helloOutbound token session seq = GwOutbound.resume token sid seq) ↔
      session.isSome = true) ∧
    (∀ (mem : BotState) (store : Option DiscordState) (e : DiscordEvent),
      Opcode.from_u8 e.op = Opcode.invalidSession →
      (handleLoopEvt mem store (LoopEvt.textFrame e)).1.1.session_id =
        none ∧
      (handleLoopEvt mem store (LoopEvt.textFrame e)).1.1.sequence = none ∧
      (DiscordState.load
        (handleLoopEvt mem store (LoopEvt.textFrame e)).1.2).session_id =
        none ∧
      (DiscordState.load
        (handleLoopEvt mem store (LoopEvt.textFrame e)).1.2).sequence =
        none ∧
      (handleLoopEvt mem store (LoopEvt.textFrame e)).2.2 = false) := by
  refine ⟨fun token sid seq => rfl, fun token seq => rfl, ?_, ?_⟩
  · intro token session seq
    constructor
    · intro ⟨sid, hsid, _⟩
      rw [hsid]
      rfl
    · intro h
      cases session with
      | none => simp at h
      | some sid => exact ⟨sid, rfl, rfl⟩
  · intro mem store e hop
    cases hs : e.s with
    | none =>
      simp_all [handleLoopEvt, update_sequence, clear_session, save_state,
        DiscordState.save, DiscordState.load]
    | some v =>
      simp_all [handleLoopEvt, update_sequence, clear_session, save_state,
        DiscordState.save, DiscordState.load]

/-- C7 witness: hello against a persisted session and against an empty
one, and an invalid-session frame against a live concrete state. -/
theorem C7_hello_resume_identify_invalid_session_witness :
    helloOutbound "tok" (some "S") (some 42) =
      GwOutbound.resume "tok" "S" (some 42) ∧
    helloOutbound "tok" none (some 42) =
      GwOutbound.identify "tok" 33280 ∧
    (handleLoopEvt ⟨some 7, some "S", some "B"⟩ none
        (LoopEvt.textFrame ⟨9, some 8⟩)).1.1.session_id = none ∧
    (handleLoopEvt ⟨some 7, some "S", some "B"⟩ none
        (LoopEvt.textFrame ⟨9, some 8⟩)).1.1.sequence = none := by
  have hinv := C7_hello_resume_identify_invalid_session.2.2.2
    ⟨some 7, some "S", some "B"⟩ none ⟨9, some 8⟩ rfl
  exact ⟨C7_hello_resume_identify_invalid_session.1 "tok" "S" (some 42),
    C7_hello_resume_identify_invalid_session.2.1 "tok" (some 42),
    hinv.1, hinv.2.1⟩

/-- C10: every persisted write of session state triggered by
`update_sequence` (with a present sequence), `set_session_id` or
`clear_session` replaces the WHOLE `bot_state` document, carrying the
in-memory session id, sequence and bot user id but always
`rate_limit := none`; startup reads the stored rate (defaulting to 40)
into the limiter, so a configured rate is erased by the first
session-state save even though startup used it. -/
theorem C10_save_state_erases_rate_limit :
    (∀ (mem : BotState) (store : Option DiscordState) (v : Nat),
      (update_sequence (some v) mem store).2 =
        some ⟨"bot_state", mem.session_id, some v, mem.bot_user_id,
          none⟩) ∧
    (∀ (mem : BotState) (store : Option DiscordState),
      update_sequence none mem store = (mem, store)) ∧
    (∀ (mem : BotState) (store : Option DiscordState) (i : String),
      (set_session_id i mem store).2 =
        some ⟨"bot_state", some i, mem.sequence, mem.bot_user_id, none⟩) ∧
    (∀ (mem : BotState) (store : Option DiscordState),
      (clear_session mem store).2 =
        some ⟨"bot_state", none, none, mem.bot_user_id, none⟩) ∧
    (∀ (r : ℚ) (sid : Option String) (seq : Option Nat)
      (buid : Option String) (now : ℚ),
      (init_rate_limiter (some ⟨"bot_state", sid, seq, buid, some r⟩)
        now).refill_rate = r) ∧
    (∀ (store : Option DiscordState) (now : ℚ),
      DiscordState.load store = ⟨"bot_state", none, none, none, none⟩ →
      (init_rate_limiter store now).refill_rate = 40) ∧
    (∀ (mem : BotState) (store : Option DiscordState) (v : Nat),
      init_rate_limit (update_sequence (some v) mem store).2 = 40) := by
  refine ⟨fun mem store v => rfl, fun mem store => rfl,
    fun mem store i => rfl, fun mem store => rfl,
    fun r sid seq buid now => rfl, ?_, fun mem store v => rfl⟩
  intro store now h
  unfold init_rate_limiter init_rate_limit RateLimiter.new
  rw [h]
  rfl

/-- C10 witness: the load-default conjunct applied to the empty store. -/
theorem C10_save_state_erases_rate_limit_witness :
    (init_rate_limiter none 0).refill_rate = 40 :=
  C10_save_state_erases_rate_limit.2.2.2.2.2.1 none 0 rfl

/-- One token-loop step keeps quality in 1..=100 and threshold at
most 255. -/
theorem applyTok_range :
    ∀ (args : CommandArgs) (tok : String),
      1 ≤ args.quality ∧ args.quality ≤ 100 ∧ args.threshold ≤ 255 →
      1 ≤ (applyTok args tok).quality ∧
        (applyTok args tok).quality ≤ 100 ∧
        (applyTok args tok).threshold ≤ 255 := by
  intro args tok h
  unfold applyTok
  split_ifs
  any_goals exact h
  cases hp : parseU16 tok with
  | none => exact h
  | some n =>
    cases hk : args.kind <;> simp only
    · split_ifs with hin
      · exact ⟨hin.1, hin.2, h.2.2⟩
      · exact h
    · exact h
    · split_ifs with hin
      · exact ⟨h.1, h.2.1, hin⟩
      · exact h

/-- The whole token loop keeps quality in 1..=100 and threshold at
most 255. -/
theorem foldl_applyTok_range (toks : List String) :
    ∀ args : CommandArgs,
      1 ≤ args.quality ∧ args.quality ≤ 100 ∧ args.threshold ≤ 255 →
      1 ≤ (toks.foldl applyTok args).quality ∧
        (toks.foldl applyTok args).quality ≤ 100 ∧
        (toks.foldl applyTok args).threshold ≤ 255 := by
  induction toks with
  | nil => intro args h; exact h
  | cons t ts ih =>
    intro args h
    exact ih (applyTok args t) (applyTok_range args t h)

/-- C8 counterexample: the claim fixes the parser defaults at quality 80
and threshold 160, citing the `CommandArgs::default` of
`src/discord/handle/message.rs` lines 32–43 — but that legacy default has
threshold 60, and the legacy parser on the claim's own concrete input
`rembg 999` yields threshold 60, not 160. -/
theorem C8_counterexample :
    CommandArgsLegacy.default.threshold = 60 ∧
    legacy_parse_command_args "rembg 999" "B" =
      some { kind := CommandKind.rembg
             quality := 80
             threshold := 60
             should_zip := false
             binary_mode := false
             include_mask := false } ∧
    (60 : Nat) ≠ 160 := by
  refine ⟨rfl, by decide, by decide⟩

/-- C8 (amended): the parser of `src/discord/message/handle.rs` behaves
as claimed — defaults quality 80 and threshold 160, unknown flags
ignored (a token that is none of zip/binary/mask and not an in-range
number leaves the arguments unchanged), numeric parameters accepted only
in range (quality 1..=100, threshold 0..=255), and `rembg 999` leaves
the threshold at 160; the LEGACY parser of
`src/discord/handle/message.rs`, however, defaults the threshold to 60,
so there `rembg 999` yields 60. -/
theorem C8_parse_command_args_ranges :
    parse_command_args "rembg 999" "B" =
      some { kind := CommandKind.rembg
             quality := 80
             threshold := 160
             zip := false
             mode := false
             mask := false } ∧
    (CommandArgs.default.quality = 80 ∧
      CommandArgs.default.threshold = 160) ∧
    (∀ (args : CommandArgs) (tok : String),
      tok ≠ "zip" → tok ≠ "binary" → tok ≠ "mask" →
      parseU16 tok = none → applyTok args tok = args) ∧
    (∀ (args : CommandArgs) (tok : String) (n : Nat),
      parseU16 tok = some n → args.kind = CommandKind.rembg → 255 < n →
      applyTok args tok = args) ∧
    (∀ (args : CommandArgs) (tok : String) (n : Nat),
      parseU16 tok = some n → args.kind = CommandKind.blp →
      (n < 1 ∨ 100 < n) → applyTok args tok = args) ∧
    (∀ (content bot : String) (args : CommandArgs),
      parse_command_args content bot = some args →
      1 ≤ args.quality ∧ args.quality ≤ 100 ∧ args.threshold ≤ 255) := by
  refine ⟨by decide, ⟨rfl, rfl⟩, ?_, ?_, ?_, ?_⟩
  · intro args tok h1 h2 h3 hp
    unfold applyTok
    rw [if_neg h1, if_neg h2, if_neg h3, hp]
  · intro args tok n hp hk hn
    have h1 : tok ≠ "zip" := by
      intro h
      rw [h, (by decide : parseU16 "zip" = none)] at hp
      cases hp
    have h2 : tok ≠ "binary" := by
      intro h
      rw [h, (by decide : parseU16 "binary" = none)] at hp
      cases hp
    have h3 : tok ≠ "mask" := by
      intro h
      rw [h, (by decide : parseU16 "mask" = none)] at hp
      cases hp
    unfold applyTok
    rw [if_neg h1, if_neg h2, if_neg h3, hp, hk]
    simp only
    rw [if_neg (by omega)]
  · intro args tok n hp hk hn
    have h1 : tok ≠ "zip" := by
      intro h
      rw [h, (by decide : parseU16 "zip" = none)] at hp
      cases hp
    have h2 : tok ≠ "binary" := by
      intro h
      rw [h, (by decide : parseU16 "binary" = none)] at hp
      cases hp
    have h3 : tok ≠ "mask" := by
      intro h
      rw [h, (by decide : parseU16 "mask" = none)] at hp
      cases hp
    unfold applyTok
    rw [if_neg h1, if_neg h2, if_neg h3, hp, hk]
    simp only
    rw [if_neg (by omega)]
  · intro content bot args hp
    unfold parse_command_args at hp
    cases htoks : commandTokens content with
    | nil => rw [htoks] at hp; cases hp
    | cons t0 rest =>
      rw [htoks] at hp
      have hp2 : (match kindOfToken t0 with
          | none => (none : Option CommandArgs)
          | some k =>
            some (rest.foldl applyTok
              { CommandArgs.default with kind := k })) = some args := hp
      cases hkind : kindOfToken t0 with
      | none =>
        rw [hkind] at hp2
        exact Option.noConfusion
          (show (none : Option CommandArgs) = some args from hp2)
      | some k =>
        rw [hkind] at hp2
        have heq : rest.foldl applyTok
            { CommandArgs.default with kind := k } = args :=
          Option.some.inj
            (show some (rest.foldl applyTok
                { CommandArgs.default with kind := k }) = some args
              from hp2)
        rw [← heq]
        exact foldl_applyTok_range rest
          { CommandArgs.default with kind := k }
          (by refine ⟨?_, ?_, ?_⟩ <;> simp [CommandArgs.default])

/-- C8 witness: the unknown-flag and out-of-range conjuncts applied to
concrete tokens, and the range conjunct applied to the parse of a
concrete message. -/
theorem C8_parse_command_args_ranges_witness :
    applyTok CommandArgs.default "frobnicate" = CommandArgs.default ∧
    applyTok { CommandArgs.default with kind := CommandKind.rembg } "999" =
      { CommandArgs.default with kind := CommandKind.rembg } ∧
    applyTok { CommandArgs.default with kind := CommandKind.blp } "101" =
      { CommandArgs.default with kind := CommandKind.blp } ∧
    (1 ≤ ({ kind := CommandKind.rembg, quality := 80, threshold := 160,
            zip := false, mode := false, mask := false } :
        CommandArgs).quality ∧
      ({ kind := CommandKind.rembg, quality := 80, threshold := 160,
          zip := false, mode := false, mask := false } :
        CommandArgs).quality ≤ 100 ∧
      ({ kind := CommandKind.rembg, quality := 80, threshold := 160,
          zip := false, mode := false, mask := false } :
        CommandArgs).threshold ≤ 255) := by
  refine ⟨?_, ?_, ?_, ?_⟩
  · exact C8_parse_command_args_ranges.2.2.1 CommandArgs.default
      "frobnicate" (by decide) (by decide) (by decide) (by decide)
  · exact C8_parse_command_args_ranges.2.2.2.1
      { CommandArgs.default with kind := CommandKind.rembg } "999" 999
      (by decide) rfl (by decide)
  · exact C8_parse_command_args_ranges.2.2.2.2.1
      { CommandArgs.default with kind := CommandKind.blp } "101" 101
      (by decide) rfl (Or.inr (by decide))
  · exact C8_parse_command_args_ranges.2.2.2.2.2 "rembg 999" "B"
      { kind := CommandKind.rembg, quality := 80, threshold := 160,
        zip := false, mode := false, mask := false } (by decide)

/-- C9: the claim (and `src/discord/message/attachment.rs` as named by
its own function, `ensure_unique_filenames`) promises pairwise-distinct
filenames, but the stem-indexed renaming can collide with an original
name: on [a.png, a.png, a_2.png] the second a.png is renamed to a_2.png,
which duplicates the untouched third file. Order and count are
preserved; distinctness is not. -/
theorem C9_ensure_unique_filenames_collision :
    (ensure_unique_filenames
      [⟨"1", "u1", "a.png"⟩, ⟨"2", "u2", "a.png"⟩,
        ⟨"3", "u3", "a_2.png"⟩]).map (fun a => a.filename) =
      ["a.png", "a_2.png", "a_2.png"] ∧
    ¬ List.Pairwise (fun a b => a ≠ b)
      ((ensure_unique_filenames
        [⟨"1", "u1", "a.png"⟩, ⟨"2", "u2", "a.png"⟩,
          ⟨"3", "u3", "a_2.png"⟩]).map (fun a => a.filename)) ∧
    (ensure_unique_filenames
      [⟨"1", "u1", "a.png"⟩, ⟨"2", "u2", "a.png"⟩,
        ⟨"3", "u3", "a_2.png"⟩]).map (fun a => a.id) =
      ["1", "2", "3"] := by
  refine ⟨by decide, by decide, by decide⟩

end DiscordBot
